import Mathlib

/-!
Shallow embedding of the conversion-cache core of the flight2 repository:
the two-tier artifact cache (internal/dataset/manager.go) and the remote
handle cache (internal/source/source.go).

File-system effects, the network fetch and the external converter registry
are modelled by oracles in an environment record; the mutable state (the
in-memory cache, the on-disk cache directory and the set of scratch files)
is passed explicitly.  Bytes are lists of naturals.  Side effects that the
claims observe (fetch, converter open, import, disk-cache read, driver
lookup) are recorded in an event trace.
-/

namespace Flight2

/-- Contents of a file, as a byte list. -/
abbrev Bytes := List Nat

/-- Result of os.Stat on a path: the path does not exist, Stat failed with
some other error, or the path exists and is a file or a directory. -/
inductive StatRes where
  | notExist
  | errOther
  | file (isDir : Bool)
deriving DecidableEq

/-- True when Stat succeeded and the path is not a directory
(the probe condition err == nil && !info.IsDir() of manager.go). -/
def statIsFile : StatRes → Bool
  | .file d => !d
  | _ => false

/-- True when Stat succeeded and the path is a directory. -/
def statIsDir : StatRes → Bool
  | .file d => d
  | _ => false

/-- A value of the credentials map (map[string]interface\x7b\x7d in Go).
The str constructor is a Go string (the type assertion .(string)
succeeds on it); other carries any other value, recorded by its
fmt.Sprint image. -/
inductive CVal where
  | str (s : String)
  | other (r : String)
deriving DecidableEq

/-- fmt.Sprint of a credential value. -/
def CVal.sprint : CVal → String
  | .str s => s
  | .other r => r

/-- The credentials map, as an association list with distinct keys. -/
abbrev Creds := List (String × CVal)

/-- Association-list lookup keyed by strings. -/
def alookup {β : Type} (k : String) : List (String × β) → Option β
  | [] => none
  | (k', v) :: rest => if k' = k then some v else alookup k rest

/-- Association-list update: replaces the binding of k in place, or appends
a new binding when k is absent. -/
def aset {β : Type} (k : String) (v : β) : List (String × β) → List (String × β)
  | [] => [(k, v)]
  | (k', v') :: rest => if k' = k then (k, v) :: rest else (k', v') :: aset k v rest

/-- Association-list deletion of every binding of k. -/
def adel {β : Type} (k : String) (l : List (String × β)) : List (String × β) :=
  l.filter (fun p => p.1 != k)

/-- creds[k].(string): the value bound to k when it is a Go string. -/
def credsGetString (creds : Creds) (k : String) : Option String :=
  match alookup k creds with
  | some (CVal.str s) => some s
  | _ => none

/-- The supported extensions probed by local extension resolution, in the
order listed in manager.go. -/
def supportedExtensions : List String :=
  [".csv", ".xlsx", ".xls", ".zip", ".html", ".htm", ".json", ".txt",
   ".db", ".sqlite", ".sqlite3"]

/-- getDriver of manager.go: maps a lower-cased extension to a converter
driver name, or the empty string when the format is unsupported. -/
def getDriver (ext : String) : String :=
  match ext with
  | ".csv" => "csv"
  | ".xlsx" => "excel"
  | ".xls" => "excel"
  | ".zip" => "zip"
  | ".html" => "html"
  | ".htm" => "html"
  | ".json" => "json"
  | ".txt" => "txt"
  | _ => ""

/-- Walks the reversed character list of a path, accumulating the suffix
seen so far; mirrors the loop of Go filepath.Ext, which scans backwards,
stops at a path separator and returns the suffix from the last dot. -/
def extScan : List Char → List Char → String
  | [], _ => ""
  | c :: rest, acc =>
    if c = '/' then ""
    else if c = '.' then String.mk (c :: acc)
    else extScan rest (c :: acc)

/-- filepath.Ext: the suffix of the final path element beginning at its
final dot, or the empty string when the element has no dot. -/
def pathExt (p : String) : String :=
  extScan p.data.reverse []

/-- strings.ToLower, modelled for ASCII characters (the only ones the
extension tables contain). -/
def lowerStr (s : String) : String :=
  String.mk (s.data.map Char.toLower)

/-- Models the hex MD5 digest used for cache-file names and handle-cache
keys.  Cryptographic hashing is outside the embedding; the digest is
idealized as an injective encoding of its input (the identity), which is
the collision-freedom both caches rely on. -/
def md5Hex (s : String) : String := s

/-- The cache key of GetSQLiteDB: fmt.Sprintf("%s:%s", alias, sourcePath).
The alias argument is written aliasStr because alias is reserved in Lean. -/
def mkCacheKey (aliasStr sourcePath : String) : String :=
  aliasStr ++ ":" ++ sourcePath

/-- Oracle environment for the conversion cache manager: the configured
cache directory plus the outcome of every file-system, network and
converter operation the manager performs.  CreateTemp and the write inside
writeTempFile are indexed by the temp-file counter. -/
structure Env where
  cacheDir : String
  stat : String → StatRes
  fetchRes : String → Except String Bytes
  convOpenRes : String → Except String Unit
  importRes : String → Bytes → Except String Bytes
  dirOpenOk : Bool
  dirImportRes : String → Except String Bytes
  createOk : Nat → Bool
  writeOk : Nat → Bool
  copySourceOk : Bool
  openSrcOk : Bool
  copyOutOk : Bool
  diskReadOk : Bool
  readBackOk : Bool
  memSetOk : Bool
  diskWriteOk : Bool

/-- Mutable state of the manager: the in-memory tier, the on-disk tier
(files named by hashed keys in the cache directory), the scratch files
currently on disk, and the counter that makes CreateTemp names fresh. -/
structure St where
  memCache : List (String × Bytes)
  diskCache : List (String × Bytes)
  scratch : List (String × Bytes)
  nextTmp : Nat
deriving DecidableEq

/-- Observable side effects of a GetSQLiteDB call. -/
inductive Ev where
  | fetchOpen (path : String)
  | convOpen (driver : String)
  | importRun (driver : String)
  | driverLookup (ext : String)
  | diskRead (path : String)
deriving DecidableEq

/-- Name produced by CreateTemp(cacheDir, "flight2_db_*.sqlite"). -/
def tmpDbName (env : Env) (n : Nat) : String :=
  env.cacheDir ++ "/flight2_db_" ++ toString n ++ ".sqlite"

/-- Name produced by CreateTemp(cacheDir, "flight2_source_*" + ext). -/
def tmpSrcName (env : Env) (ext : String) (n : Nat) : String :=
  env.cacheDir ++ "/flight2_source_" ++ toString n ++ ext

/-- Name produced by CreateTemp(cacheDir, "flight2_cache_*.sqlite") inside
writeTempFile. -/
def tmpCacheName (env : Env) (n : Nat) : String :=
  env.cacheDir ++ "/flight2_cache_" ++ toString n ++ ".sqlite"

/-- On-disk cache file for a key: filepath.Join(cacheDir, md5hex + ".sqlite"). -/
def diskPathOf (env : Env) (key : String) : String :=
  env.cacheDir ++ "/" ++ md5Hex key ++ ".sqlite"

/-- Local extension resolution (manager.go lines 58 to 69): only when the
credential type is local and the path does not exist, probe each supported
extension in order and take the first existing non-directory match; no
match leaves the path unchanged. -/
def resolveSourcePath (env : Env) (creds : Creds) (sourcePath : String) : String :=
  if credsGetString creds "type" = some "local" ∧ env.stat sourcePath = .notExist then
    match supportedExtensions.find? (fun ext => statIsFile (env.stat (sourcePath ++ ext))) with
    | some ext => sourcePath ++ ext
    | none => sourcePath
  else sourcePath

/-- writeTempFile of manager.go: create a fresh scratch file and write the
cached bytes to it.  On write failure the error returns without removing
the created file. -/
def writeTempFile (env : Env) (st : St) (data : Bytes) : Except String String × St :=
  let n := st.nextTmp
  if env.createOk n then
    let name := tmpCacheName env n
    let st1 : St := { st with nextTmp := n + 1, scratch := aset name [] st.scratch }
    if env.writeOk n then
      (Except.ok name, { st1 with scratch := aset name data st1.scratch })
    else
      (Except.error "failed to write temp file", st1)
  else
    (Except.error "failed to create temp file", st)

/-- m.cache.Set(key, data): updates the in-memory tier when the concurrent
store accepts the entry; a Set error leaves the tier unchanged (the caller
at most logs a warning). -/
def memSet (env : Env) (st : St) (key : String) (data : Bytes) : St :=
  if env.memSetOk then { st with memCache := aset key data st.memCache } else st

/-- Conversion of an already-materialized input scratch file (manager.go
lines 180 to 234): pass-through copy for .db/.sqlite/.sqlite3, otherwise
driver resolution, converter open and import.  The incoming state already
holds the output scratch file outName and the input scratch file; on
success the output file holds the produced bytes, on failure the output
file is removed (the input file is removed later by the deferred remove in
convertFile). -/
def convertExisting (env : Env) (st : St) (ext : String) (src : Bytes)
    (outName : String) : Except String Bytes × St × List Ev :=
  if ext == ".db" || ext == ".sqlite" || ext == ".sqlite3" then
    if env.openSrcOk then
      if env.copyOutOk then
        (Except.ok src, { st with scratch := aset outName src st.scratch }, [])
      else
        (Except.error "failed to copy to output",
         { st with scratch := adel outName st.scratch }, [])
    else
      (Except.error "failed to open source temp file",
       { st with scratch := adel outName st.scratch }, [])
  else
    let driver := getDriver ext
    if driver == "" then
      (Except.error ("unsupported file type: " ++ ext),
       { st with scratch := adel outName st.scratch }, [Ev.driverLookup ext])
    else if env.openSrcOk then
      match env.convOpenRes driver with
      | Except.error e =>
        (Except.error ("failed to open converter for " ++ driver ++ ": " ++ e),
         { st with scratch := adel outName st.scratch },
         [Ev.driverLookup ext, Ev.convOpen driver])
      | Except.ok _ =>
        match env.importRes driver src with
        | Except.error e =>
          (Except.error ("conversion failed: " ++ e),
           { st with scratch := adel outName st.scratch },
           [Ev.driverLookup ext, Ev.convOpen driver, Ev.importRun driver])
        | Except.ok data =>
          (Except.ok data, { st with scratch := aset outName data st.scratch },
           [Ev.driverLookup ext, Ev.convOpen driver, Ev.importRun driver])
    else
      (Except.error "failed to open source temp file",
       { st with scratch := adel outName st.scratch }, [Ev.driverLookup ext])

/-- Non-directory miss path (manager.go lines 151 to 234): fetch the source
stream, copy it into a fresh input scratch file, then convert.  The
deferred os.Remove of the input scratch file runs on every exit from this
scope. -/
def convertFile (env : Env) (st : St) (sourcePath : String)
    (outName : String) : Except String Bytes × St × List Ev :=
  match env.fetchRes sourcePath with
  | Except.error e =>
    (Except.error ("fetch error: " ++ e),
     { st with scratch := adel outName st.scratch }, [Ev.fetchOpen sourcePath])
  | Except.ok src =>
    let ext := lowerStr (pathExt sourcePath)
    let n := st.nextTmp
    if env.createOk n then
      let srcName := tmpSrcName env ext n
      let st1 : St := { st with nextTmp := n + 1, scratch := aset srcName [] st.scratch }
      if env.copySourceOk then
        let st2 : St := { st1 with scratch := aset srcName src st1.scratch }
        match convertExisting env st2 ext src outName with
        | (r, st3, evs) =>
          (r, { st3 with scratch := adel srcName st3.scratch },
           Ev.fetchOpen sourcePath :: evs)
      else
        (Except.error "failed to write source temp file",
         { st1 with scratch := adel srcName (adel outName st1.scratch) },
         [Ev.fetchOpen sourcePath])
    else
      (Except.error "failed to create source temp file",
       { st with scratch := adel outName st.scratch }, [Ev.fetchOpen sourcePath])

/-- Local-directory miss path (manager.go lines 128 to 150): open the
directory and import it through the filesystem converter. -/
def convertDir (env : Env) (st : St) (sourcePath : String)
    (outName : String) : Except String Bytes × St × List Ev :=
  if env.dirOpenOk then
    match env.convOpenRes "filesystem" with
    | Except.error e =>
      (Except.error ("failed to open filesystem converter: " ++ e),
       { st with scratch := adel outName st.scratch }, [Ev.convOpen "filesystem"])
    | Except.ok _ =>
      match env.dirImportRes sourcePath with
      | Except.error e =>
        (Except.error ("conversion failed: " ++ e),
         { st with scratch := adel outName st.scratch },
         [Ev.convOpen "filesystem", Ev.importRun "filesystem"])
      | Except.ok data =>
        (Except.ok data, { st with scratch := aset outName data st.scratch },
         [Ev.convOpen "filesystem", Ev.importRun "filesystem"])
  else
    (Except.error "failed to open source directory",
     { st with scratch := adel outName st.scratch }, [])

/-- The whole miss pipeline (manager.go lines 103 to 242): create the
output scratch file, convert a directory or a fetched file into it, close
it and read the produced bytes back.  A read-back failure returns the
error without removing the output scratch file, mirroring lines 239 to
242 of the source. -/
def fetchConvert (env : Env) (st : St) (sourcePath : String) (creds : Creds) :
    Except String (String × Bytes) × St × List Ev :=
  let n := st.nextTmp
  if env.createOk n then
    let outName := tmpDbName env n
    let st1 : St := { st with nextTmp := n + 1, scratch := aset outName [] st.scratch }
    let isLocal := credsGetString creds "type" = some "local"
    let isDir := isLocal ∧ statIsDir (env.stat sourcePath) = true
    match if isDir then convertDir env st1 sourcePath outName
          else convertFile env st1 sourcePath outName with
    | (Except.error e, st2, evs) => (Except.error e, st2, evs)
    | (Except.ok data, st2, evs) =>
      if env.readBackOk then
        (Except.ok (outName, data), st2, evs)
      else
        (Except.error "failed to read converted db", st2, evs)
  else
    (Except.error "failed to create output temp file", st, [])

/-- Cache-miss tail of GetSQLiteDB (manager.go lines 103 to 259): run the
miss pipeline, then update the memory tier (a Set failure only warns) and
the disk tier (a write failure only warns), and return the output scratch
path. -/
def cacheMiss (env : Env) (st : St) (sourcePath : String) (creds : Creds)
    (key diskPath : String) : Except String String × St × List Ev :=
  match fetchConvert env st sourcePath creds with
  | (Except.error e, st1, evs) => (Except.error e, st1, evs)
  | (Except.ok (outName, data), st1, evs) =>
    let st2 := memSet env st1 key data
    let st3 := if env.diskWriteOk
               then { st2 with diskCache := aset diskPath data st2.diskCache }
               else st2
    (Except.ok outName, st3, evs)

/-- GetSQLiteDB of manager.go: resolve the local extension, build the
alias-scoped cache key, consult the memory tier, then the disk tier, and
on a double miss run the fetch-and-convert pipeline. -/
def getSQLiteDB (env : Env) (st : St) (sourcePath : String) (creds : Creds)
    (aliasStr : String) : Except String String × St × List Ev :=
  let sp := resolveSourcePath env creds sourcePath
  let key := mkCacheKey aliasStr sp
  match alookup key st.memCache with
  | some entry =>
    match writeTempFile env st entry with
    | (r, st') => (r, st', [])
  | none =>
    let diskPath := diskPathOf env key
    match alookup diskPath st.diskCache with
    | some data =>
      if env.diskReadOk then
        let st1 := memSet env st key data
        match writeTempFile env st1 data with
        | (r, st') => (r, st', [Ev.diskRead diskPath])
      else
        match cacheMiss env st sp creds key diskPath with
        | (r, st', evs) => (r, st', Ev.diskRead diskPath :: evs)
    | none => cacheMiss env st sp creds key diskPath

/-- strings.TrimPrefix(s, "/"): removes one leading slash when present. -/
def trimLeadingSlash (s : String) : String :=
  match s.data with
  | '/' :: rest => String.mk rest
  | _ => s

/-- Go path.Base: the last element of a slash-separated path, after
removing trailing slashes; "." for the empty path and "/" for a path of
only slashes. -/
def pathBase (p : String) : String :=
  if p = "" then "." else
  let cs := (p.data.reverse.dropWhile (fun c => decide (c = '/'))).reverse
  let base := (cs.reverse.takeWhile (fun c => decide (c ≠ '/'))).reverse
  if base = [] then "/" else String.mk base

/-- One step of Go path.Clean on a path element: empty and dot elements
vanish, dotdot pops the last real element (or is kept at the start of a
relative path, or dropped at the root of a rooted path), and any other
element is pushed.  The accumulator holds the cleaned elements in reverse
order. -/
def cleanPush (rooted : Bool) (out : List String) (elem : String) : List String :=
  if elem = "" ∨ elem = "." then out
  else if elem = ".." then
    match out with
    | top :: rest => if top = ".." then elem :: out else rest
    | [] => if rooted then [] else [elem]
  else elem :: out

/-- Go path.Clean: shortest equivalent slash-separated path. -/
def pathClean (p : String) : String :=
  if p = "" then "." else
  let rooted := p.startsWith "/"
  let elems := (p.split (fun c => decide (c = '/'))).foldl (cleanPush rooted) []
  let body := String.intercalate "/" elems.reverse
  if rooted then "/" ++ body
  else if body = "" then "." else body

/-- Go path.Dir: everything through the final slash, cleaned. -/
def pathDir (p : String) : String :=
  pathClean (String.mk (p.data.reverse.dropWhile (fun c => decide (c ≠ '/'))).reverse)

/-- Components of a parsed URL, as used by getVFS: scheme, host and path. -/
structure UrlParts where
  scheme : String
  host : String
  upath : String
deriving DecidableEq

/-- Oracle environment for the remote handle cache: the outcome of
filepath.Abs, url.Parse, fs.Find and regInfo.NewFs. -/
structure VfsEnv where
  absRes : String → Option String
  urlParse : String → Option UrlParts
  findRes : String → Except String Unit
  newFsRes : String → String → List (String × String) → Except String Unit

/-- Shared state of the remote handle cache: the hash-keyed handle map and
the counter that identifies distinct handle objects. -/
structure VfsSt where
  vfsCache : List (String × Nat)
  nextHandle : Nat
deriving DecidableEq

/-- Backend type selection (source.go lines 43 to 50): the string value of
the type credential, else http when the path carries an http or https
scheme, else a configuration error. -/
def vfsFsType (creds : Creds) (sourcePath : String) : Option String :=
  match credsGetString creds "type" with
  | some t => some t
  | none =>
    if sourcePath.startsWith "http:" || sourcePath.startsWith "https:" then some "http"
    else none

/-- Root and relative-path decomposition per backend class (source.go
lines 52 to 86). -/
def decomposeRoot (env : VfsEnv) (fsType sourcePath : String) : String × String :=
  match fsType with
  | "local" =>
    let ap := match env.absRes sourcePath with
              | some a => a
              | none => sourcePath
    ("/", trimLeadingSlash ap)
  | "http" =>
    match env.urlParse sourcePath with
    | some u => (u.scheme ++ "://" ++ u.host, trimLeadingSlash u.upath)
    | none => (pathDir sourcePath, pathBase sourcePath)
  | "https" =>
    match env.urlParse sourcePath with
    | some u => (u.scheme ++ "://" ++ u.host, trimLeadingSlash u.upath)
    | none => (pathDir sourcePath, pathBase sourcePath)
  | _ => ("", trimLeadingSlash sourcePath)

/-- Lexicographic comparison of character lists; on valid Unicode text this
is the order sort.Strings uses, since UTF-8 byte order agrees with
code-point order. -/
def lexLe : List Char → List Char → Bool
  | [], _ => true
  | _ :: _, [] => false
  | a :: as, b :: bs => if a < b then true else if a = b then lexLe as bs else false

/-- Byte-order comparison used by sort.Strings. -/
def strLeb (a b : String) : Bool := lexLe a.data b.data

/-- The sort order on credential keys, as a relation. -/
def keyOrder (a b : String) : Prop := strLeb a b = true

instance : DecidableRel keyOrder := fun a b => instDecidableEqBool (strLeb a b) true

/-- The credential keys in sorted order. -/
def sortKeys (l : List String) : List String := List.insertionSort keyOrder l

/-- Digest input of the handle-cache key (source.go lines 88 to 102): the
resolved root followed by each credential key and the fmt.Sprint of its
value, keys visited in sorted order. -/
def vfsHashInput (fsRoot : String) (creds : Creds) : String :=
  (sortKeys (creds.map Prod.fst)).foldl
    (fun acc k =>
      acc ++ k ++ (match alookup k creds with
                   | some v => v.sprint
                   | none => ""))
    fsRoot

/-- The rclone config map handed to NewFs: every credential except type,
values string-formatted. -/
def vfsConf (creds : Creds) : List (String × String) :=
  (creds.filter (fun p => p.1 != "type")).map (fun p => (p.1, p.2.sprint))

/-- getVFS of source.go: determine the backend type, decompose the path,
hash root plus sorted credentials, and return the cached handle for that
hash or lazily create a new one.  Failed creations leave the map
untouched. -/
def getVFS (env : VfsEnv) (st : VfsSt) (sourcePath : String) (creds : Creds) :
    Except String (Nat × String) × VfsSt :=
  match vfsFsType creds sourcePath with
  | none => (Except.error "credentials missing type field", st)
  | some fsType =>
    let rp := decomposeRoot env fsType sourcePath
    let hash := md5Hex (vfsHashInput rp.1 creds)
    match alookup hash st.vfsCache with
    | some v => (Except.ok (v, rp.2), st)
    | none =>
      match env.findRes fsType with
      | Except.error e => (Except.error ("backend type not found: " ++ e), st)
      | Except.ok _ =>
        let remoteName := "flight2_" ++ hash
        match env.newFsRes remoteName rp.1 (vfsConf creds) with
        | Except.error e => (Except.error ("failed to create fs: " ++ e), st)
        | Except.ok _ =>
          (Except.ok (st.nextHandle, rp.2),
           { vfsCache := (hash, st.nextHandle) :: st.vfsCache,
             nextHandle := st.nextHandle + 1 })

/-- Concrete all-success oracle environment used by witnesses and
counterexamples: every file-system, fetch and converter operation
succeeds, the fetch returns bytes 1,2,3, and an import prepends a 0. -/
def exEnv : Env where
  cacheDir := "c"
  stat := fun _ => StatRes.notExist
  fetchRes := fun _ => Except.ok [1, 2, 3]
  convOpenRes := fun _ => Except.ok ()
  importRes := fun _ b => Except.ok (0 :: b)
  dirOpenOk := true
  dirImportRes := fun _ => Except.ok [9]
  createOk := fun _ => true
  writeOk := fun _ => true
  copySourceOk := true
  openSrcOk := true
  copyOutOk := true
  diskReadOk := true
  readBackOk := true
  memSetOk := true
  diskWriteOk := true

/-- Empty manager state. -/
def exSt : St := ⟨[], [], [], 0⟩

/-- A minimal remote credential map. -/
def exCreds : Creds := [("type", CVal.str "s3")]

/-- Concrete all-success oracle environment for the handle cache. -/
def exVfsEnv : VfsEnv where
  absRes := fun s => some s
  urlParse := fun _ => none
  findRes := fun _ => Except.ok ()
  newFsRes := fun _ _ _ => Except.ok ()

/-- Empty handle-cache state. -/
def exVfsSt : VfsSt := ⟨[], 0⟩

/-- A state whose memory tier already holds an entry for key a:x.csv. -/
def exStMem : St := ⟨[("a:x.csv", [7, 8])], [], [], 5⟩

/-- Local credentials. -/
def exCredsLocal : Creds := [("type", CVal.str "local")]

/-- Environment where only the file report.csv exists. -/
def exEnvLocal : Env :=
  { exEnv with stat := fun s => if s = "report.csv" then StatRes.file false else StatRes.notExist }

theorem alookup_aset_self {β : Type} (k : String) (v : β) (l : List (String × β)) :
    alookup k (aset k v l) = some v := by
  induction l with
  | nil => simp [alookup, aset]
  | cons p rest ih =>
    by_cases h : p.1 = k
    · simp [aset, alookup, h]
    · simp [aset, alookup, h, ih]

theorem alookup_aset_ne {β : Type} {k k' : String} (v : β) (l : List (String × β))
    (h : k' ≠ k) : alookup k (aset k' v l) = alookup k l := by
  induction l with
  | nil => simp [alookup, aset, h]
  | cons p rest ih =>
    by_cases hp : p.1 = k'
    · simp [aset, alookup, hp, h]
    · simp [aset, alookup, hp, ih]

theorem adel_nil {β : Type} (k : String) : adel k ([] : List (String × β)) = [] := rfl

theorem adel_cons {β : Type} (k : String) (p : String × β) (rest : List (String × β)) :
    adel k (p :: rest) = if p.1 = k then adel k rest else p :: adel k rest := by
  by_cases h : p.1 = k <;> simp [adel, List.filter_cons, h]

theorem alookup_adel_self {β : Type} (k : String) (l : List (String × β)) :
    alookup k (adel k l) = none := by
  induction l with
  | nil => simp [alookup, adel_nil]
  | cons p rest ih =>
    rw [adel_cons]
    by_cases hp : p.1 = k
    · simp [hp, ih]
    · simp [alookup, hp, ih]

theorem alookup_adel_ne {β : Type} {k k' : String} (l : List (String × β))
    (h : k' ≠ k) : alookup k (adel k' l) = alookup k l := by
  induction l with
  | nil => simp [adel_nil]
  | cons p rest ih =>
    rw [adel_cons]
    by_cases hp : p.1 = k'
    · have hpk : p.1 ≠ k := by rw [hp]; exact h
      simp [hp, alookup, hpk, ih, h]
    · by_cases hk : p.1 = k <;> simp [alookup, hp, hk, ih, h, Ne.symm h]

theorem adel_aset_self {β : Type} (k : String) (v : β) (l : List (String × β)) :
    adel k (aset k v l) = adel k l := by
  induction l with
  | nil => simp [aset, adel_cons, adel_nil]
  | cons p rest ih =>
    by_cases hp : p.1 = k
    · simp [aset, hp, adel_cons]
    · simp [aset, hp, adel_cons, ih]

theorem adel_of_alookup_none {β : Type} {k : String} {l : List (String × β)}
    (h : alookup k l = none) : adel k l = l := by
  induction l with
  | nil => rfl
  | cons p rest ih =>
    by_cases hp : p.1 = k
    · simp [alookup, hp] at h
    · simp [alookup, hp] at h
      simp [adel_cons, hp, ih h]

theorem adel_aset_ne {β : Type} {k k' : String} (v : β) (l : List (String × β))
    (h : k' ≠ k) : adel k (aset k' v l) = aset k' v (adel k l) := by
  induction l with
  | nil => simp [aset, adel_cons, adel_nil, h]
  | cons p rest ih =>
    by_cases hp : p.1 = k'
    · by_cases hk : p.1 = k
      · rw [hk] at hp; exact absurd hp.symm h
      · simp [aset, adel_cons, hp, hk, h, Ne.symm h]
    · by_cases hk : p.1 = k
      · simp [aset, adel_cons, hp, hk, ih, h, Ne.symm h]
      · simp [aset, adel_cons, hp, hk, ih, h, Ne.symm h]

theorem aset_aset_self {β : Type} (k : String) (v v' : β) (l : List (String × β)) :
    aset k v (aset k v' l) = aset k v l := by
  induction l with
  | nil => simp [aset]
  | cons p rest ih =>
    by_cases hp : p.1 = k
    · simp [aset, hp]
    · simp [aset, hp, ih]

theorem adel_comm {β : Type} (a b : String) (l : List (String × β)) :
    adel a (adel b l) = adel b (adel a l) := by
  induction l with
  | nil => rfl
  | cons p rest ih =>
    by_cases ha : p.1 = a
    · by_cases hb : p.1 = b
      · rw [ha.symm.trans hb]
      · have hnab : a ≠ b := fun he => hb (ha.trans he)
        simp [adel_cons, ha, hb, hnab, Ne.symm hnab, ih]
    · by_cases hb : p.1 = b
      · have hnba : b ≠ a := fun he => ha (hb.trans he)
        simp [adel_cons, ha, hb, hnba, Ne.symm hnba, ih]
      · simp [adel_cons, ha, hb, ih]

theorem ne_cons_ne {α : Type} (pre : List α) {c d : α} {x y : List α} (h : c ≠ d) :
    pre ++ c :: x ≠ pre ++ d :: y := by
  intro he
  have := List.append_cancel_left he
  injection this with h1 _
  exact h h1

theorem convertExisting_error (env : Env) (st : St) (ext : String) (src : Bytes)
    (outName : String) {e : String} {st' : St} {evs : List Ev}
    (h : convertExisting env st ext src outName = (Except.error e, st', evs)) :
    st' = { st with scratch := adel outName st.scratch } := by
  simp only [convertExisting] at h
  repeat' split at h
  all_goals simp_all

theorem convertExisting_ok (env : Env) (st : St) (ext : String) (src : Bytes)
    (outName : String) {data : Bytes} {st' : St} {evs : List Ev}
    (h : convertExisting env st ext src outName = (Except.ok data, st', evs)) :
    st' = { st with scratch := aset outName data st.scratch } := by
  simp only [convertExisting] at h
  repeat' split at h
  all_goals simp at h
  all_goals (rcases h with ⟨rfl, h2, rfl⟩; exact h2.symm)

theorem convertDir_error (env : Env) (st : St) (sp outName : String)
    {e : String} {st' : St} {evs : List Ev}
    (h : convertDir env st sp outName = (Except.error e, st', evs)) :
    st' = { st with scratch := adel outName st.scratch } := by
  simp only [convertDir] at h
  repeat' split at h
  all_goals simp_all

theorem convertDir_ok (env : Env) (st : St) (sp outName : String)
    {data : Bytes} {st' : St} {evs : List Ev}
    (h : convertDir env st sp outName = (Except.ok data, st', evs)) :
    st' = { st with scratch := aset outName data st.scratch } := by
  simp only [convertDir] at h
  repeat' split at h
  all_goals simp at h
  all_goals (rcases h with ⟨rfl, h2, rfl⟩; exact h2.symm)


theorem tmpDb_ne_tmpSrc (env : Env) (ext : String) (n m : Nat) :
    tmpDbName env n ≠ tmpSrcName env ext m := by
  intro h
  have hd := congrArg String.data h
  simp only [tmpDbName, tmpSrcName, String.data_append, List.append_assoc] at hd
  have h2 := List.append_cancel_left hd
  simp [List.cons_append] at h2

theorem convertFile_error (env : Env) (st : St) (sp outName : String)
    {e : String} {st' : St} {evs : List Ev}
    (h : convertFile env st sp outName = (Except.error e, st', evs))
    (hfresh : alookup (tmpSrcName env (lowerStr (pathExt sp)) st.nextTmp) st.scratch = none) :
    st'.scratch = adel outName st.scratch ∧ st'.memCache = st.memCache
      ∧ st'.diskCache = st.diskCache := by
  simp only [convertFile] at h
  cases hf : env.fetchRes sp with
  | error e0 =>
    rw [hf] at h
    simp at h
    rcases h with ⟨rfl, h2, rfl⟩
    rw [← h2]
    exact ⟨rfl, rfl, rfl⟩
  | ok src =>
    rw [hf] at h
    cases hc : env.createOk st.nextTmp with
    | false =>
      simp only [hc, Bool.false_eq_true, if_false] at h
      simp at h
      rcases h with ⟨rfl, h2, rfl⟩
      rw [← h2]
      exact ⟨rfl, rfl, rfl⟩
    | true =>
      simp only [hc, if_true] at h
      cases hcp : env.copySourceOk with
      | false =>
        simp only [hcp, Bool.false_eq_true, if_false] at h
        simp at h
        rcases h with ⟨rfl, h2, rfl⟩
        rw [← h2]
        refine ⟨?_, rfl, rfl⟩
        show adel (tmpSrcName env (lowerStr (pathExt sp)) st.nextTmp)
            (adel outName (aset (tmpSrcName env (lowerStr (pathExt sp)) st.nextTmp) [] st.scratch))
          = adel outName st.scratch
        rw [adel_comm, adel_aset_self, adel_of_alookup_none hfresh]
      | true =>
        simp only [hcp, if_true] at h
        rcases hce : convertExisting env ({ st with nextTmp := st.nextTmp + 1, scratch := aset (tmpSrcName env (lowerStr (pathExt sp)) st.nextTmp) src (aset (tmpSrcName env (lowerStr (pathExt sp)) st.nextTmp) [] st.scratch) }) (lowerStr (pathExt sp)) src outName with ⟨r, st3, evs3⟩
        rw [hce] at h
        cases r with
        | ok d => simp at h
        | error e1 =>
          have h3 := convertExisting_error _ _ _ _ _ hce
          simp at h
          rcases h with ⟨rfl, h2, rfl⟩
          rw [← h2]
          refine ⟨?_, ?_, ?_⟩
          · show adel (tmpSrcName env (lowerStr (pathExt sp)) st.nextTmp) st3.scratch
              = adel outName st.scratch
            rw [h3]
            show adel (tmpSrcName env (lowerStr (pathExt sp)) st.nextTmp)
                (adel outName (aset (tmpSrcName env (lowerStr (pathExt sp)) st.nextTmp) src
                  (aset (tmpSrcName env (lowerStr (pathExt sp)) st.nextTmp) [] st.scratch)))
              = adel outName st.scratch
            rw [aset_aset_self, adel_comm, adel_aset_self, adel_of_alookup_none hfresh]
          · show st3.memCache = st.memCache
            rw [h3]
          · show st3.diskCache = st.diskCache
            rw [h3]



theorem convertFile_ok (env : Env) (st : St) (sp outName : String)
    {data : Bytes} {st' : St} {evs : List Ev}
    (h : convertFile env st sp outName = (Except.ok data, st', evs))
    (hfresh : alookup (tmpSrcName env (lowerStr (pathExt sp)) st.nextTmp) st.scratch = none)
    (hne : tmpSrcName env (lowerStr (pathExt sp)) st.nextTmp ≠ outName) :
    st'.scratch = aset outName data st.scratch ∧ st'.memCache = st.memCache
      ∧ st'.diskCache = st.diskCache := by
  simp only [convertFile] at h
  cases hf : env.fetchRes sp with
  | error e0 => rw [hf] at h; simp at h
  | ok src =>
    rw [hf] at h
    cases hc : env.createOk st.nextTmp with
    | false => simp only [hc, Bool.false_eq_true, if_false] at h; simp at h
    | true =>
      simp only [hc, if_true] at h
      cases hcp : env.copySourceOk with
      | false => simp only [hcp, Bool.false_eq_true, if_false] at h; simp at h
      | true =>
        simp only [hcp, if_true] at h
        rcases hce : convertExisting env ({ st with nextTmp := st.nextTmp + 1, scratch := aset (tmpSrcName env (lowerStr (pathExt sp)) st.nextTmp) src (aset (tmpSrcName env (lowerStr (pathExt sp)) st.nextTmp) [] st.scratch) }) (lowerStr (pathExt sp)) src outName with ⟨r, st3, evs3⟩
        rw [hce] at h
        cases r with
        | error e1 => simp at h
        | ok d =>
          have h3 := convertExisting_ok _ _ _ _ _ hce
          simp at h
          rcases h with ⟨rfl, h2, rfl⟩
          rw [← h2]
          refine ⟨?_, ?_, ?_⟩
          · show adel (tmpSrcName env (lowerStr (pathExt sp)) st.nextTmp) st3.scratch
              = aset outName d st.scratch
            rw [h3]
            show adel (tmpSrcName env (lowerStr (pathExt sp)) st.nextTmp)
                (aset outName d (aset (tmpSrcName env (lowerStr (pathExt sp)) st.nextTmp) src
                  (aset (tmpSrcName env (lowerStr (pathExt sp)) st.nextTmp) [] st.scratch)))
              = aset outName d st.scratch
            rw [aset_aset_self, adel_aset_ne _ _ (Ne.symm hne), adel_aset_self,
                adel_of_alookup_none hfresh]
          · show st3.memCache = st.memCache
            rw [h3]
          · show st3.diskCache = st.diskCache
            rw [h3]

theorem fetchConvert_error (env : Env) (st : St) (sp : String) (creds : Creds)
    {e : String} {st' : St} {evs : List Ev}
    (h : fetchConvert env st sp creds = (Except.error e, st', evs))
    (hrb : env.readBackOk = true)
    (hfo : alookup (tmpDbName env st.nextTmp) st.scratch = none)
    (hfs : alookup (tmpSrcName env (lowerStr (pathExt sp)) (st.nextTmp + 1)) st.scratch = none) :
    st'.scratch = st.scratch ∧ st'.memCache = st.memCache
      ∧ st'.diskCache = st.diskCache := by
  simp only [fetchConvert] at h
  cases hc : env.createOk st.nextTmp with
  | false =>
    simp only [hc, Bool.false_eq_true, if_false] at h
    simp at h
    rcases h with ⟨rfl, h2, rfl⟩
    rw [← h2]
    exact ⟨rfl, rfl, rfl⟩
  | true =>
    simp only [hc, if_true] at h
    by_cases hid : (credsGetString creds "type" = some "local" ∧ statIsDir (env.stat sp) = true)
    · rw [if_pos hid] at h
      rcases hcd : convertDir env ({ st with nextTmp := st.nextTmp + 1, scratch := aset (tmpDbName env st.nextTmp) [] st.scratch }) sp (tmpDbName env st.nextTmp) with ⟨r, st2, evs2⟩
      rw [hcd] at h
      cases r with
      | ok d => simp [hrb] at h
      | error e1 =>
        have h3 := convertDir_error _ _ _ _ hcd
        simp at h
        rcases h with ⟨rfl, h2, rfl⟩
        rw [← h2, h3]
        refine ⟨?_, rfl, rfl⟩
        show adel (tmpDbName env st.nextTmp) (aset (tmpDbName env st.nextTmp) [] st.scratch)
          = st.scratch
        rw [adel_aset_self, adel_of_alookup_none hfo]
    · rw [if_neg hid] at h
      rcases hcf : convertFile env ({ st with nextTmp := st.nextTmp + 1, scratch := aset (tmpDbName env st.nextTmp) [] st.scratch }) sp (tmpDbName env st.nextTmp) with ⟨r, st2, evs2⟩
      rw [hcf] at h
      cases r with
      | ok d => simp [hrb] at h
      | error e1 =>
        have hfresh2 : alookup (tmpSrcName env (lowerStr (pathExt sp)) (st.nextTmp + 1))
            (aset (tmpDbName env st.nextTmp) [] st.scratch) = none := by
          rw [alookup_aset_ne _ _ (tmpDb_ne_tmpSrc env _ st.nextTmp (st.nextTmp + 1))]
          exact hfs
        have h3 := convertFile_error _ _ _ _ hcf hfresh2
        simp at h
        rcases h with ⟨rfl, h2, rfl⟩
        rw [← h2]
        refine ⟨?_, ?_, ?_⟩
        · rw [h3.1]
          show adel (tmpDbName env st.nextTmp) (aset (tmpDbName env st.nextTmp) [] st.scratch)
            = st.scratch
          rw [adel_aset_self, adel_of_alookup_none hfo]
        · rw [h3.2.1]
        · rw [h3.2.2]



/-- C2 (amended): for every call of getArtifact that returns an error, all
scratch files created by that call have been deleted and the disk tier is
unchanged, provided the failure is not a read-back failure of the
converted output and not a write failure inside the materialize helper
(those two paths leak the output scratch file, see the counterexample);
the memory tier is unchanged except that the disk-hit path may populate it
with the complete existing disk entry before materialization fails. -/
theorem getSQLiteDB_error_cleanup (env : Env) (st : St) (sourcePath : String)
    (creds : Creds) (aliasStr : String) {e : String} {st' : St} {evs : List Ev}
    (h : getSQLiteDB env st sourcePath creds aliasStr = (Except.error e, st', evs))
    (hw : ∀ n, env.writeOk n = true)
    (hrb : env.readBackOk = true)
    (hfo : alookup (tmpDbName env st.nextTmp) st.scratch = none)
    (hfs : alookup (tmpSrcName env
      (lowerStr (pathExt (resolveSourcePath env creds sourcePath))) (st.nextTmp + 1))
      st.scratch = none) :
    st'.scratch = st.scratch ∧ st'.diskCache = st.diskCache
    ∧ (st'.memCache = st.memCache ∨
       ∃ d, alookup (diskPathOf env (mkCacheKey aliasStr (resolveSourcePath env creds sourcePath)))
              st.diskCache = some d
         ∧ st'.memCache = aset (mkCacheKey aliasStr (resolveSourcePath env creds sourcePath)) d
             st.memCache) := by
  simp only [getSQLiteDB] at h
  cases hm : alookup (mkCacheKey aliasStr (resolveSourcePath env creds sourcePath)) st.memCache with
  | some entry =>
    rw [hm] at h
    simp only [writeTempFile] at h
    cases hc : env.createOk st.nextTmp with
    | false =>
      simp only [hc, Bool.false_eq_true, if_false] at h
      simp at h
      rcases h with ⟨rfl, h2, rfl⟩
      rw [← h2]
      exact ⟨rfl, rfl, Or.inl rfl⟩
    | true => simp [hc, hw st.nextTmp] at h
  | none =>
    rw [hm] at h
    cases hd : alookup (diskPathOf env (mkCacheKey aliasStr (resolveSourcePath env creds sourcePath))) st.diskCache with
    | some d =>
      rw [hd] at h
      cases hdr : env.diskReadOk with
      | true =>
        simp only [hdr, if_true] at h
        simp only [writeTempFile] at h
        cases hc : env.createOk (memSet env st (mkCacheKey aliasStr (resolveSourcePath env creds sourcePath)) d).nextTmp with
        | false =>
          simp only [hc, Bool.false_eq_true, if_false] at h
          simp at h
          rcases h with ⟨rfl, h2, rfl⟩
          rw [← h2]
          cases hms : env.memSetOk with
          | false => refine ⟨?_, ?_, Or.inl ?_⟩ <;> simp [memSet, hms]
          | true => refine ⟨?_, ?_, Or.inr ⟨d, rfl, ?_⟩⟩ <;> simp [memSet, hms]
        | true => simp [hc, hw] at h
      | false =>
        simp only [hdr, Bool.false_eq_true, if_false] at h
        simp only [cacheMiss] at h
        rcases hfc : fetchConvert env st (resolveSourcePath env creds sourcePath) creds with ⟨r, st1, evs1⟩
        rw [hfc] at h
        cases r with
        | ok p => simp at h
        | error e1 =>
          have h3 := fetchConvert_error _ _ _ _ hfc hrb hfo hfs
          simp at h
          rcases h with ⟨rfl, h2, rfl⟩
          rw [← h2]
          exact ⟨h3.1, h3.2.2, Or.inl h3.2.1⟩
    | none =>
      rw [hd] at h
      simp only [cacheMiss] at h
      rcases hfc : fetchConvert env st (resolveSourcePath env creds sourcePath) creds with ⟨r, st1, evs1⟩
      rw [hfc] at h
      cases r with
      | ok p => simp at h
      | error e1 =>
        have h3 := fetchConvert_error _ _ _ _ hfc hrb hfo hfs
        simp at h
        rcases h with ⟨rfl, h2, rfl⟩
        rw [← h2]
        exact ⟨h3.1, h3.2.2, Or.inl h3.2.1⟩



theorem mkCacheKey_data (a p : String) :
    (mkCacheKey a p).data = a.data ++ ':' :: p.data := by
  have hc : (":" : String).data = [':'] := rfl
  simp [mkCacheKey, String.data_append, hc, List.append_assoc]

theorem colon_split {l₁ l₂ r₁ r₂ : List Char} (h₁ : ':' ∉ l₁) (h₂ : ':' ∉ l₂)
    (h : l₁ ++ ':' :: r₁ = l₂ ++ ':' :: r₂) : l₁ = l₂ ∧ r₁ = r₂ := by
  induction l₁ generalizing l₂ with
  | nil =>
    cases l₂ with
    | nil => simpa using h
    | cons b bs =>
      injection h with hb hrest
      exact absurd (hb ▸ List.mem_cons_self b bs) h₂
  | cons a as ih =>
    cases l₂ with
    | nil =>
      injection h with hb hrest
      exact absurd (hb ▸ List.mem_cons_self a as) h₁
    | cons b bs =>
      injection h with hab hrest
      have h₁' : ':' ∉ as := fun hm => h₁ (List.mem_cons_of_mem _ hm)
      have h₂' : ':' ∉ bs := fun hm => h₂ (List.mem_cons_of_mem _ hm)
      obtain ⟨he, hr⟩ := ih h₁' h₂' hrest
      exact ⟨by rw [hab, he], hr⟩

/-- C1 (amended): the cache key alias + ":" + sourcePath identifies the
pair (alias, sourcePath) whenever the two paths agree (so two different
aliases with the same path never share an entry), and is fully injective
when the aliases contain no colon; without that restriction the key is
not injective (see the counterexample). -/
theorem cacheKey_injective (a₁ p₁ a₂ p₂ : String) :
    (p₁ = p₂ → (mkCacheKey a₁ p₁ = mkCacheKey a₂ p₂ ↔ a₁ = a₂))
    ∧ (':' ∉ a₁.data → ':' ∉ a₂.data →
        (mkCacheKey a₁ p₁ = mkCacheKey a₂ p₂ ↔ (a₁ = a₂ ∧ p₁ = p₂))) := by
  constructor
  · rintro rfl
    constructor
    · intro h
      have hd := congrArg String.data h
      rw [mkCacheKey_data, mkCacheKey_data] at hd
      exact String.ext (List.append_cancel_right hd)
    · rintro rfl; rfl
  · intro h₁ h₂
    constructor
    · intro h
      have hd := congrArg String.data h
      rw [mkCacheKey_data, mkCacheKey_data] at hd
      obtain ⟨ha, hp⟩ := colon_split h₁ h₂ hd
      exact ⟨String.ext ha, String.ext hp⟩
    · rintro ⟨rfl, rfl⟩; rfl

/-- C1 witness: two different tenants with the same path get different
cache keys. -/
theorem cacheKey_injective_witness :
    (mkCacheKey "tenantA" "/data.csv" = mkCacheKey "tenantB" "/data.csv"
      ↔ ("tenantA" : String) = "tenantB") :=
  (cacheKey_injective "tenantA" "/data.csv" "tenantB" "/data.csv").1 rfl

/-- C1 counterexample: the claimed iff fails for aliases containing a
colon: alias "a:b" with path "c" and alias "a" with path "b:c" produce the
same cache key although the pairs differ. -/
theorem cacheKey_injective_counterexample :
    mkCacheKey "a:b" "c" = mkCacheKey "a" "b:c"
    ∧ ¬(("a:b" : String) = "a" ∧ ("c" : String) = "b:c") := by
  constructor
  · rfl
  · intro hcontra
    exact absurd hcontra.1 (by decide)


theorem passThrough_convertFile (env : Env) (st : St) (sp outName : String) (bs : Bytes)
    (hext : lowerStr (pathExt sp) = ".db" ∨ lowerStr (pathExt sp) = ".sqlite"
      ∨ lowerStr (pathExt sp) = ".sqlite3")
    (hf : env.fetchRes sp = Except.ok bs)
    (hc : env.createOk st.nextTmp = true)
    (hcp : env.copySourceOk = true) (ho : env.openSrcOk = true)
    (hco : env.copyOutOk = true)
    (hne : tmpSrcName env (lowerStr (pathExt sp)) st.nextTmp ≠ outName)
    (hfresh : alookup (tmpSrcName env (lowerStr (pathExt sp)) st.nextTmp) st.scratch = none) :
    convertFile env st sp outName
      = (Except.ok bs,
         { st with nextTmp := st.nextTmp + 1, scratch := aset outName bs st.scratch },
         [Ev.fetchOpen sp]) := by
  obtain hx | hx | hx := hext <;>
    simp [convertFile, convertExisting, hf, hc, hcp, ho, hco, hx, aset_aset_self,
      adel_aset_ne _ _ (Ne.symm (hx ▸ hne)), adel_aset_self, adel_of_alookup_none (hx ▸ hfresh)]


/-- C5: on the cache-miss path, a source whose lower-cased extension is
.db, .sqlite or .sqlite3 is copied byte-for-byte from the input scratch
file to the output file: the call succeeds with the output scratch path,
the only observable effect is the fetch (no driver lookup, no converter
open, no import), and the returned file holds exactly the fetched
bytes. -/
theorem passThroughNoConversion (env : Env) (st : St) (sourcePath : String)
    (creds : Creds) (aliasStr : String) (bs : Bytes)
    (hext : lowerStr (pathExt (resolveSourcePath env creds sourcePath)) = ".db"
      ∨ lowerStr (pathExt (resolveSourcePath env creds sourcePath)) = ".sqlite"
      ∨ lowerStr (pathExt (resolveSourcePath env creds sourcePath)) = ".sqlite3")
    (hm : alookup (mkCacheKey aliasStr (resolveSourcePath env creds sourcePath)) st.memCache = none)
    (hd : alookup (diskPathOf env (mkCacheKey aliasStr (resolveSourcePath env creds sourcePath))) st.diskCache = none)
    (hnd : ¬(credsGetString creds "type" = some "local"
      ∧ statIsDir (env.stat (resolveSourcePath env creds sourcePath)) = true))
    (hf : env.fetchRes (resolveSourcePath env creds sourcePath) = Except.ok bs)
    (hc1 : env.createOk st.nextTmp = true)
    (hc2 : env.createOk (st.nextTmp + 1) = true)
    (hcp : env.copySourceOk = true) (ho : env.openSrcOk = true)
    (hco : env.copyOutOk = true) (hrb : env.readBackOk = true)
    (hfs : alookup (tmpSrcName env
      (lowerStr (pathExt (resolveSourcePath env creds sourcePath))) (st.nextTmp + 1))
      st.scratch = none) :
    (getSQLiteDB env st sourcePath creds aliasStr).1 = Except.ok (tmpDbName env st.nextTmp)
    ∧ (getSQLiteDB env st sourcePath creds aliasStr).2.2
        = [Ev.fetchOpen (resolveSourcePath env creds sourcePath)]
    ∧ alookup (tmpDbName env st.nextTmp)
        (getSQLiteDB env st sourcePath creds aliasStr).2.1.scratch = some bs := by
  have hcf := passThrough_convertFile env
    ({ st with nextTmp := st.nextTmp + 1, scratch := aset (tmpDbName env st.nextTmp) [] st.scratch })
    (resolveSourcePath env creds sourcePath) (tmpDbName env st.nextTmp) bs hext hf hc2 hcp ho hco
    (Ne.symm (tmpDb_ne_tmpSrc env _ st.nextTmp (st.nextTmp + 1)))
    (by rw [alookup_aset_ne _ _ (tmpDb_ne_tmpSrc env _ st.nextTmp (st.nextTmp + 1))]; exact hfs)
  have hstep : getSQLiteDB env st sourcePath creds aliasStr
      = cacheMiss env st (resolveSourcePath env creds sourcePath) creds
          (mkCacheKey aliasStr (resolveSourcePath env creds sourcePath))
          (diskPathOf env (mkCacheKey aliasStr (resolveSourcePath env creds sourcePath))) := by
    simp only [getSQLiteDB, hm, hd]
  refine ⟨?_, ?_, ?_⟩
  · rw [hstep]
    simp only [cacheMiss, fetchConvert, hc1, if_true]
    rw [if_neg hnd, hcf]
    simp only [hrb, if_true]
  · rw [hstep]
    simp only [cacheMiss, fetchConvert, hc1, if_true]
    rw [if_neg hnd, hcf]
    simp only [hrb, if_true]
  · rw [hstep]
    simp only [cacheMiss, fetchConvert, hc1, if_true]
    rw [if_neg hnd, hcf]
    simp only [hrb, if_true]
    cases hdw : env.diskWriteOk <;> cases hms : env.memSetOk <;>
      simp only [hdw, hms, memSet, Bool.false_eq_true, if_true, if_false] <;>
      rw [aset_aset_self, alookup_aset_self]


/-- C9: a call whose cache key is present in the in-memory tier returns a
freshly created scratch file holding exactly the cached bytes, records no
observable effect (no disk-cache read, no fetch, no converter), and leaves
both cache tiers unchanged. -/
theorem memoryHitMaterializes (env : Env) (st : St) (sourcePath : String)
    (creds : Creds) (aliasStr : String) (entry : Bytes)
    (hm : alookup (mkCacheKey aliasStr (resolveSourcePath env creds sourcePath))
      st.memCache = some entry)
    (hc : env.createOk st.nextTmp = true)
    (hw : env.writeOk st.nextTmp = true) :
    (getSQLiteDB env st sourcePath creds aliasStr).1
        = Except.ok (tmpCacheName env st.nextTmp)
    ∧ (getSQLiteDB env st sourcePath creds aliasStr).2.2 = []
    ∧ alookup (tmpCacheName env st.nextTmp)
        (getSQLiteDB env st sourcePath creds aliasStr).2.1.scratch = some entry
    ∧ (getSQLiteDB env st sourcePath creds aliasStr).2.1.memCache = st.memCache
    ∧ (getSQLiteDB env st sourcePath creds aliasStr).2.1.diskCache = st.diskCache := by
  refine ⟨?_, ?_, ?_, ?_, ?_⟩ <;>
    simp only [getSQLiteDB, hm, writeTempFile, hc, hw, if_true] <;>
    (try rfl) <;>
    rw [aset_aset_self, alookup_aset_self]

/-- C9 witness. -/
theorem memoryHitMaterializes_witness :
    (getSQLiteDB exEnv exStMem "x.csv" exCreds "a").1
        = Except.ok (tmpCacheName exEnv 5)
    ∧ (getSQLiteDB exEnv exStMem "x.csv" exCreds "a").2.2 = []
    ∧ alookup (tmpCacheName exEnv 5)
        (getSQLiteDB exEnv exStMem "x.csv" exCreds "a").2.1.scratch = some [7, 8]
    ∧ (getSQLiteDB exEnv exStMem "x.csv" exCreds "a").2.1.memCache = exStMem.memCache
    ∧ (getSQLiteDB exEnv exStMem "x.csv" exCreds "a").2.1.diskCache = exStMem.diskCache :=
  memoryHitMaterializes exEnv exStMem "x.csv" exCreds "a" [7, 8] (by decide) rfl rfl

/-- C7: once the fetch-and-convert pipeline has succeeded, the call
returns the output scratch path and no error for every combination of
memory-tier and disk-tier persistence outcomes; a successful Set updates
the memory tier under the cache key and a successful write updates the
disk tier under the hashed filename with the .sqlite suffix, while a
failed persistence leaves the tier unchanged without affecting the
result. -/
theorem cachePersistenceBestEffort (env : Env) (st : St) (sourcePath : String)
    (creds : Creds) (aliasStr : String) {outName : String} {data : Bytes}
    {st1 : St} {evs : List Ev}
    (hm : alookup (mkCacheKey aliasStr (resolveSourcePath env creds sourcePath))
      st.memCache = none)
    (hd : alookup (diskPathOf env (mkCacheKey aliasStr (resolveSourcePath env creds sourcePath)))
      st.diskCache = none)
    (hfc : fetchConvert env st (resolveSourcePath env creds sourcePath) creds
      = (Except.ok (outName, data), st1, evs)) :
    (getSQLiteDB env st sourcePath creds aliasStr).1 = Except.ok outName
    ∧ (getSQLiteDB env st sourcePath creds aliasStr).2.2 = evs
    ∧ (env.memSetOk = true →
        (getSQLiteDB env st sourcePath creds aliasStr).2.1.memCache
          = aset (mkCacheKey aliasStr (resolveSourcePath env creds sourcePath)) data st1.memCache)
    ∧ (env.memSetOk = false →
        (getSQLiteDB env st sourcePath creds aliasStr).2.1.memCache = st1.memCache)
    ∧ (env.diskWriteOk = true →
        (getSQLiteDB env st sourcePath creds aliasStr).2.1.diskCache
          = aset (diskPathOf env (mkCacheKey aliasStr (resolveSourcePath env creds sourcePath)))
              data st1.diskCache)
    ∧ (env.diskWriteOk = false →
        (getSQLiteDB env st sourcePath creds aliasStr).2.1.diskCache = st1.diskCache) := by
  refine ⟨?_, ?_, ?_, ?_, ?_, ?_⟩ <;>
    simp only [getSQLiteDB, hm, hd, cacheMiss, hfc] <;>
    (try rfl) <;>
    intro hx <;>
    cases hms : env.memSetOk <;> cases hdw : env.diskWriteOk <;>
    simp_all [memSet]



/-- C7 witness. -/
theorem cachePersistenceBestEffort_witness :
    (getSQLiteDB exEnv exSt "x.csv" exCreds "a").1 = Except.ok (tmpDbName exEnv 0)
    ∧ (getSQLiteDB exEnv exSt "x.csv" exCreds "a").2.1.memCache
        = aset "a:x.csv" [0, 1, 2, 3] [] :=
  ⟨(cachePersistenceBestEffort exEnv exSt "x.csv" exCreds "a" rfl rfl rfl).1,
   (cachePersistenceBestEffort exEnv exSt "x.csv" exCreds "a" rfl rfl rfl).2.2.1 rfl⟩

theorem head_ne_strings {s t : String} {c d : Char} (hs : s.data.head? = some c)
    (ht : t.data.head? = some d) (h : c ≠ d) : s ≠ t := by
  intro he
  rw [he, ht] at hs
  exact h (Option.some.inj hs).symm

theorem convertExisting_unsupported_iff (env : Env) (st : St) (ext : String)
    (src : Bytes) (outName : String)
    (hpt : (ext == ".db" || ext == ".sqlite" || ext == ".sqlite3") = false) :
    ((convertExisting env st ext src outName).1
        = Except.error ("unsupported file type: " ++ ext)
      ↔ getDriver ext = "") := by
  by_cases hgd : getDriver ext = ""
  · simp [convertExisting, hpt, hgd]
  · simp only [convertExisting, hpt, Bool.false_eq_true, if_false]
    have hbeq : (getDriver ext == "") = false := by
      exact beq_eq_false_iff_ne.mpr hgd
    simp only [hbeq, Bool.false_eq_true, if_false]
    constructor
    · intro h
      exfalso
      cases ho : env.openSrcOk with
      | false =>
        simp only [ho, Bool.false_eq_true, if_false] at h
        exact absurd (Except.error.inj h) (head_ne_strings rfl rfl (by decide))
      | true =>
        simp only [ho, if_true] at h
        cases hco : env.convOpenRes (getDriver ext) with
        | error e0 =>
          rw [hco] at h
          simp only at h
          exact absurd (Except.error.inj h) (head_ne_strings rfl rfl (by decide))
        | ok u =>
          rw [hco] at h
          cases him : env.importRes (getDriver ext) src with
          | error e0 =>
            rw [him] at h
            simp only at h
            exact absurd (Except.error.inj h) (head_ne_strings rfl rfl (by decide))
          | ok d =>
            rw [him] at h
            simp only at h
            exact Except.noConfusion h
    · intro h
      exact absurd h hgd



theorem convertFile_unsupported_iff (env : Env) (st : St) (sp outName : String)
    {bs : Bytes} (hf : env.fetchRes sp = Except.ok bs)
    (hc : env.createOk st.nextTmp = true) (hcp : env.copySourceOk = true)
    (hpt : (lowerStr (pathExt sp) == ".db" || lowerStr (pathExt sp) == ".sqlite"
      || lowerStr (pathExt sp) == ".sqlite3") = false) :
    ((convertFile env st sp outName).1
        = Except.error ("unsupported file type: " ++ lowerStr (pathExt sp))
      ↔ getDriver (lowerStr (pathExt sp)) = "") := by
  simp only [convertFile]
  rw [hf]
  simp only [hc, hcp, if_true]
  exact convertExisting_unsupported_iff _ _ _ _ _ hpt

theorem fetchConvert_unsupported_iff (env : Env) (st : St) (sp : String) (creds : Creds)
    {bs : Bytes}
    (hnd : ¬(credsGetString creds "type" = some "local" ∧ statIsDir (env.stat sp) = true))
    (hc1 : env.createOk st.nextTmp = true)
    (hf : env.fetchRes sp = Except.ok bs)
    (hc2 : env.createOk (st.nextTmp + 1) = true)
    (hcp : env.copySourceOk = true)
    (hpt : (lowerStr (pathExt sp) == ".db" || lowerStr (pathExt sp) == ".sqlite"
      || lowerStr (pathExt sp) == ".sqlite3") = false) :
    ((fetchConvert env st sp creds).1
        = Except.error ("unsupported file type: " ++ lowerStr (pathExt sp))
      ↔ getDriver (lowerStr (pathExt sp)) = "") := by
  simp only [fetchConvert, hc1, if_true]
  rw [if_neg hnd]
  rcases hcf : convertFile env ({ st with nextTmp := st.nextTmp + 1, scratch := aset (tmpDbName env st.nextTmp) [] st.scratch }) sp (tmpDbName env st.nextTmp) with ⟨r, st2, evs2⟩
  have hiff := convertFile_unsupported_iff env ({ st with nextTmp := st.nextTmp + 1, scratch := aset (tmpDbName env st.nextTmp) [] st.scratch }) sp (tmpDbName env st.nextTmp) hf hc2 hcp hpt
  rw [hcf] at hiff
  cases r with
  | error e => simpa using hiff
  | ok d =>
    cases hrb : env.readBackOk with
    | true =>
      simp only [hrb, if_true]
      constructor
      · intro hcontra; exact absurd hcontra (by simp)
      · intro hg; exact absurd (hiff.mpr hg) (by simp)
    | false =>
      simp only [hrb, Bool.false_eq_true, if_false]
      constructor
      · intro hcontra
        exact absurd (Except.error.inj hcontra) (head_ne_strings rfl rfl (by decide))
      · intro hg; exact absurd (hiff.mpr hg) (by simp)

theorem unsupported_convertFile (env : Env) (st : St) (sp outName : String) (bs : Bytes)
    (hf : env.fetchRes sp = Except.ok bs)
    (hc : env.createOk st.nextTmp = true) (hcp : env.copySourceOk = true)
    (hpt : (lowerStr (pathExt sp) == ".db" || lowerStr (pathExt sp) == ".sqlite"
      || lowerStr (pathExt sp) == ".sqlite3") = false)
    (hgd : getDriver (lowerStr (pathExt sp)) = "")
    (hne : tmpSrcName env (lowerStr (pathExt sp)) st.nextTmp ≠ outName)
    (hfresh : alookup (tmpSrcName env (lowerStr (pathExt sp)) st.nextTmp) st.scratch = none) :
    convertFile env st sp outName
      = (Except.error ("unsupported file type: " ++ lowerStr (pathExt sp)),
         { st with nextTmp := st.nextTmp + 1, scratch := adel outName st.scratch },
         [Ev.fetchOpen sp, Ev.driverLookup (lowerStr (pathExt sp))]) := by
  have hlk : alookup (tmpSrcName env (lowerStr (pathExt sp)) st.nextTmp)
      (adel outName st.scratch) = none := by
    rw [alookup_adel_ne _ (Ne.symm hne)]; exact hfresh
  simp [convertFile, convertExisting, hf, hc, hcp, hpt, hgd, aset_aset_self,
    adel_aset_ne _ _ hne, adel_aset_self, adel_of_alookup_none hlk]



/-- C6: on the cache-miss path with a non-directory source, a successfully
fetched file whose lower-cased extension is not a pass-through extension
produces the unsupported-file-type error precisely when the driver lookup
yields no driver, and in that case the call leaves the scratch directory
exactly as it found it. -/
theorem unsupportedExtensionError (env : Env) (st : St) (sourcePath : String)
    (creds : Creds) (aliasStr : String) (bs : Bytes)
    (hm : alookup (mkCacheKey aliasStr (resolveSourcePath env creds sourcePath))
      st.memCache = none)
    (hd : alookup (diskPathOf env (mkCacheKey aliasStr (resolveSourcePath env creds sourcePath)))
      st.diskCache = none)
    (hnd : ¬(credsGetString creds "type" = some "local"
      ∧ statIsDir (env.stat (resolveSourcePath env creds sourcePath)) = true))
    (hf : env.fetchRes (resolveSourcePath env creds sourcePath) = Except.ok bs)
    (hc1 : env.createOk st.nextTmp = true)
    (hc2 : env.createOk (st.nextTmp + 1) = true)
    (hcp : env.copySourceOk = true)
    (hpt : (lowerStr (pathExt (resolveSourcePath env creds sourcePath)) == ".db"
      || lowerStr (pathExt (resolveSourcePath env creds sourcePath)) == ".sqlite"
      || lowerStr (pathExt (resolveSourcePath env creds sourcePath)) == ".sqlite3") = false)
    (hfo : alookup (tmpDbName env st.nextTmp) st.scratch = none)
    (hfs : alookup (tmpSrcName env
      (lowerStr (pathExt (resolveSourcePath env creds sourcePath))) (st.nextTmp + 1))
      st.scratch = none) :
    ((getSQLiteDB env st sourcePath creds aliasStr).1
        = Except.error ("unsupported file type: "
            ++ lowerStr (pathExt (resolveSourcePath env creds sourcePath)))
      ↔ getDriver (lowerStr (pathExt (resolveSourcePath env creds sourcePath))) = "")
    ∧ (getDriver (lowerStr (pathExt (resolveSourcePath env creds sourcePath))) = "" →
        (getSQLiteDB env st sourcePath creds aliasStr).2.1.scratch = st.scratch) := by
  have hstep : getSQLiteDB env st sourcePath creds aliasStr
      = cacheMiss env st (resolveSourcePath env creds sourcePath) creds
          (mkCacheKey aliasStr (resolveSourcePath env creds sourcePath))
          (diskPathOf env (mkCacheKey aliasStr (resolveSourcePath env creds sourcePath))) := by
    simp only [getSQLiteDB, hm, hd]
  constructor
  · rw [hstep]
    have hiff := fetchConvert_unsupported_iff env st
      (resolveSourcePath env creds sourcePath) creds hnd hc1 hf hc2 hcp hpt
    simp only [cacheMiss]
    rcases hfc : fetchConvert env st (resolveSourcePath env creds sourcePath) creds
      with ⟨r, st1, evs1⟩
    rw [hfc] at hiff
    cases r with
    | error e => simpa using hiff
    | ok p =>
      simp only []
      constructor
      · intro hcontra; exact absurd hcontra (by simp)
      · intro hg; exact absurd (hiff.mpr hg) (by simp)
  · intro hgd
    have hne := Ne.symm (tmpDb_ne_tmpSrc env
      (lowerStr (pathExt (resolveSourcePath env creds sourcePath))) st.nextTmp (st.nextTmp + 1))
    have hcf := unsupported_convertFile env
      ({ st with nextTmp := st.nextTmp + 1, scratch := aset (tmpDbName env st.nextTmp) [] st.scratch })
      (resolveSourcePath env creds sourcePath) (tmpDbName env st.nextTmp) bs hf hc2 hcp hpt hgd hne
      (by rw [alookup_aset_ne _ _ (tmpDb_ne_tmpSrc env _ st.nextTmp (st.nextTmp + 1))]; exact hfs)
    rw [hstep]
    simp only [cacheMiss, fetchConvert, hc1, if_true]
    rw [if_neg hnd, hcf]
    simp only []
    rw [adel_aset_self, adel_of_alookup_none hfo]



/-- C6 witness. -/
theorem unsupportedExtensionError_witness :
    ((getSQLiteDB exEnv exSt "x.unknownext" exCreds "a").1
        = Except.error ("unsupported file type: "
            ++ lowerStr (pathExt (resolveSourcePath exEnv exCreds "x.unknownext")))
      ↔ getDriver (lowerStr (pathExt (resolveSourcePath exEnv exCreds "x.unknownext"))) = "")
    ∧ (getSQLiteDB exEnv exSt "x.unknownext" exCreds "a").2.1.scratch = exSt.scratch :=
  ⟨(unsupportedExtensionError exEnv exSt "x.unknownext" exCreds "a" [1, 2, 3]
      rfl rfl (by decide) rfl rfl rfl rfl (by decide) rfl rfl).1,
   (unsupportedExtensionError exEnv exSt "x.unknownext" exCreds "a" [1, 2, 3]
      rfl rfl (by decide) rfl rfl rfl rfl (by decide) rfl rfl).2 rfl⟩

/-- C5 witness. -/
theorem passThroughNoConversion_witness :
    (getSQLiteDB exEnv exSt "x.sqlite" exCreds "a").1 = Except.ok (tmpDbName exEnv 0)
    ∧ (getSQLiteDB exEnv exSt "x.sqlite" exCreds "a").2.2
        = [Ev.fetchOpen (resolveSourcePath exEnv exCreds "x.sqlite")]
    ∧ alookup (tmpDbName exEnv 0)
        (getSQLiteDB exEnv exSt "x.sqlite" exCreds "a").2.1.scratch = some [1, 2, 3] :=
  passThroughNoConversion exEnv exSt "x.sqlite" exCreds "a" [1, 2, 3]
    (Or.inr (Or.inl (by decide))) rfl rfl (by decide) rfl rfl rfl rfl rfl rfl rfl rfl

/-- C2 witness for the amended cleanup theorem. -/
theorem getSQLiteDB_error_cleanup_witness :
    (getSQLiteDB ({ exEnv with fetchRes := fun _ => Except.error "boom" })
        exSt "x.csv" exCreds "a").2.1.scratch = exSt.scratch :=
  (getSQLiteDB_error_cleanup ({ exEnv with fetchRes := fun _ => Except.error "boom" })
    exSt "x.csv" exCreds "a" rfl (fun _ => rfl) rfl rfl rfl).1

/-- C2 counterexample: with every operation succeeding except the final
read-back of the converted output, the call returns an error yet the
output scratch file is left on disk with the converted contents, so the
claim that every failure path deletes all scratch files is false on the
code. -/
theorem getSQLiteDB_error_cleanup_counterexample :
    (getSQLiteDB ({ exEnv with readBackOk := false }) exSt "x.csv" exCreds "a").1
        = Except.error "failed to read converted db"
    ∧ alookup (tmpDbName exEnv 0)
        (getSQLiteDB ({ exEnv with readBackOk := false }) exSt "x.csv" exCreds "a").2.1.scratch
      = some [0, 1, 2, 3] :=
  ⟨rfl, rfl⟩



/-- C10: the extension of the resolved source path is lower-cased before
the pass-through test and the driver lookup, so a source named with
".SQLITE" or ".Db" takes the byte-for-byte pass-through branch, and one
named with ".CSV" is routed to the csv driver, although the tables
enumerate only lower-case extensions. -/
theorem caseInsensitiveExtensions (env : Env) (st : St) (sp outName : String) (bs : Bytes)
    (hf : env.fetchRes sp = Except.ok bs)
    (hc : env.createOk st.nextTmp = true)
    (hcp : env.copySourceOk = true) (ho : env.openSrcOk = true) (hco : env.copyOutOk = true)
    (hne : tmpSrcName env (lowerStr (pathExt sp)) st.nextTmp ≠ outName)
    (hfresh : alookup (tmpSrcName env (lowerStr (pathExt sp)) st.nextTmp) st.scratch = none) :
    (pathExt sp = ".SQLITE" →
      convertFile env st sp outName
        = (Except.ok bs,
           { st with nextTmp := st.nextTmp + 1, scratch := aset outName bs st.scratch },
           [Ev.fetchOpen sp]))
    ∧ (pathExt sp = ".Db" →
      convertFile env st sp outName
        = (Except.ok bs,
           { st with nextTmp := st.nextTmp + 1, scratch := aset outName bs st.scratch },
           [Ev.fetchOpen sp]))
    ∧ (pathExt sp = ".CSV" → ∀ out2 : Bytes,
        env.convOpenRes "csv" = Except.ok () → env.importRes "csv" bs = Except.ok out2 →
      convertFile env st sp outName
        = (Except.ok out2,
           { st with nextTmp := st.nextTmp + 1, scratch := aset outName out2 st.scratch },
           [Ev.fetchOpen sp, Ev.driverLookup ".csv", Ev.convOpen "csv",
            Ev.importRun "csv"])) := by
  refine ⟨?_, ?_, ?_⟩
  · intro hpx
    exact passThrough_convertFile env st sp outName bs
      (Or.inr (Or.inl (by rw [hpx]; decide))) hf hc hcp ho hco hne hfresh
  · intro hpx
    exact passThrough_convertFile env st sp outName bs
      (Or.inl (by rw [hpx]; decide)) hf hc hcp ho hco hne hfresh
  · intro hpx out2 hcv him
    have hl : lowerStr (pathExt sp) = ".csv" := by rw [hpx]; decide
    rw [hl] at hne hfresh
    simp [convertFile, convertExisting, hf, hc, hcp, hl, ho, hcv, him, getDriver,
      aset_aset_self, adel_aset_ne _ _ (Ne.symm hne), adel_aset_self,
      adel_of_alookup_none hfresh]



/-- C10 witness. -/
theorem caseInsensitiveExtensions_witness :
    convertFile exEnv exSt "x.SQLITE" "out"
      = (Except.ok [1, 2, 3],
         { exSt with nextTmp := 1, scratch := aset "out" [1, 2, 3] exSt.scratch },
         [Ev.fetchOpen "x.SQLITE"]) :=
  (caseInsensitiveExtensions exEnv exSt "x.SQLITE" "out" [1, 2, 3]
    rfl rfl rfl rfl rfl (by decide) rfl).1 rfl

/-- C3: with local credentials and a source path that does not exist, the
manager probes path + ext over the supported extensions in order and
replaces the path by the first existing non-directory match, so a request
for a bare name produces the same cache key as a request for the matching
name with extension; when an extension probe is the first hit it is the
one chosen, and when no probe hits the path is left unchanged. -/
theorem localExtensionResolution (env : Env) (creds : Creds) (aliasStr p : String)
    (hl : credsGetString creds "type" = some "local") :
    (env.stat p = StatRes.notExist → statIsFile (env.stat (p ++ ".csv")) = true →
      resolveSourcePath env creds p = p ++ ".csv"
      ∧ mkCacheKey aliasStr (resolveSourcePath env creds p)
          = mkCacheKey aliasStr (resolveSourcePath env creds (p ++ ".csv")))
    ∧ (env.stat p = StatRes.notExist →
        (∀ ext ∈ supportedExtensions, statIsFile (env.stat (p ++ ext)) = false) →
        resolveSourcePath env creds p = p)
    ∧ (∀ ext, env.stat p = StatRes.notExist →
        supportedExtensions.find? (fun e => statIsFile (env.stat (p ++ e))) = some ext →
        resolveSourcePath env creds p = p ++ ext) := by
  refine ⟨?_, ?_, ?_⟩
  · intro h0 hcsv
    have h1 : resolveSourcePath env creds p = p ++ ".csv" := by
      simp [resolveSourcePath, hl, h0, supportedExtensions, List.find?, hcsv]
    have h2 : resolveSourcePath env creds (p ++ ".csv") = p ++ ".csv" := by
      have hne : ¬(credsGetString creds "type" = some "local"
          ∧ env.stat (p ++ ".csv") = StatRes.notExist) := by
        rintro ⟨-, hx⟩
        rw [hx] at hcsv
        simp [statIsFile] at hcsv
      simp [resolveSourcePath, hne]
    exact ⟨h1, by rw [h1, h2]⟩
  · intro h0 hall
    have hfind : supportedExtensions.find? (fun e => statIsFile (env.stat (p ++ e))) = none :=
      List.find?_eq_none.mpr (fun x hx => by simp [hall x hx])
    simp [resolveSourcePath, hl, h0, hfind]
  · intro ext h0 hfind
    simp [resolveSourcePath, hl, h0, hfind]

/-- C3 witness: in a local directory holding only report.csv, requesting
the bare name report resolves to report.csv and hashes to the same cache
key. -/
theorem localExtensionResolution_witness :
    resolveSourcePath exEnvLocal exCredsLocal "report" = "report" ++ ".csv"
    ∧ mkCacheKey "a" (resolveSourcePath exEnvLocal exCredsLocal "report")
        = mkCacheKey "a" (resolveSourcePath exEnvLocal exCredsLocal ("report" ++ ".csv")) :=
  (localExtensionResolution exEnvLocal exCredsLocal "a" "report" (by decide)).1
    (by decide) (by decide)



theorem alookup_perm {β : Type} {l₁ l₂ : List (String × β)} (h : l₁.Perm l₂)
    (hnd : (l₁.map Prod.fst).Nodup) (k : String) :
    alookup k l₁ = alookup k l₂ := by
  induction h with
  | nil => rfl
  | cons p h ih =>
    simp only [List.map_cons, List.nodup_cons] at hnd
    simp [alookup, ih hnd.2]
  | swap p q l =>
    simp only [List.map_cons, List.nodup_cons, List.mem_cons] at hnd
    have hpq : q.1 ≠ p.1 := fun he => hnd.1 (Or.inl he)
    by_cases h1 : q.1 = k
    · have h2 : p.1 ≠ k := fun he => hpq (h1.trans he.symm)
      simp [alookup, h1, h2]
    · by_cases h2 : p.1 = k <;> simp [alookup, h1, h2]
  | trans h₁ h₂ ih₁ ih₂ =>
    have hnd₂ := (h₁.map Prod.fst).nodup hnd
    exact (ih₁ hnd).trans (ih₂ hnd₂)

theorem credsGetString_perm {creds₁ creds₂ : Creds} (h : creds₁.Perm creds₂)
    (hnd : (creds₁.map Prod.fst).Nodup) (k : String) :
    credsGetString creds₁ k = credsGetString creds₂ k := by
  simp [credsGetString, alookup_perm h hnd k]

theorem lexLe_total : ∀ l₁ l₂ : List Char, lexLe l₁ l₂ = true ∨ lexLe l₂ l₁ = true := by
  intro l₁
  induction l₁ with
  | nil => intro l₂; exact Or.inl rfl
  | cons a as ih =>
    intro l₂
    cases l₂ with
    | nil => exact Or.inr rfl
    | cons b bs =>
      rcases lt_trichotomy a b with h | h | h
      · exact Or.inl (by simp [lexLe, h])
      · subst h
        rcases ih bs with h2 | h2
        · exact Or.inl (by simp [lexLe, lt_irrefl, h2])
        · exact Or.inr (by simp [lexLe, lt_irrefl, h2])
      · exact Or.inr (by simp [lexLe, h])

theorem lexLe_trans : ∀ l₁ l₂ l₃ : List Char,
    lexLe l₁ l₂ = true → lexLe l₂ l₃ = true → lexLe l₁ l₃ = true := by
  intro l₁
  induction l₁ with
  | nil => intro l₂ l₃ _ _; rfl
  | cons a as ih =>
    intro l₂ l₃ h₁ h₂
    cases l₂ with
    | nil => simp [lexLe] at h₁
    | cons b bs =>
      cases l₃ with
      | nil => simp [lexLe] at h₂
      | cons c cs =>
        by_cases hab : a < b
        · by_cases hbc : b < c
          · simp [lexLe, lt_trans hab hbc]
          · by_cases hbc2 : b = c
            · subst hbc2; simp [lexLe, hab]
            · simp [lexLe, hbc, hbc2] at h₂
        · by_cases hab2 : a = b
          · subst hab2
            simp only [lexLe, if_neg hab, if_pos rfl] at h₁
            by_cases hbc : a < c
            · simp [lexLe, hbc]
            · by_cases hbc2 : a = c
              · subst hbc2
                simp only [lexLe, if_neg hbc, if_pos rfl] at h₂
                simp [lexLe, if_neg hbc, ih bs cs h₁ h₂]
              · simp [lexLe, hbc, hbc2] at h₂
          · simp [lexLe, hab, hab2] at h₁

theorem lexLe_antisymm : ∀ l₁ l₂ : List Char,
    lexLe l₁ l₂ = true → lexLe l₂ l₁ = true → l₁ = l₂ := by
  intro l₁
  induction l₁ with
  | nil =>
    intro l₂ _ h₂
    cases l₂ with
    | nil => rfl
    | cons b bs => simp [lexLe] at h₂
  | cons a as ih =>
    intro l₂ h₁ h₂
    cases l₂ with
    | nil => simp [lexLe] at h₁
    | cons b bs =>
      by_cases hab : a < b
      · have hba : ¬b < a := lt_asymm hab
        have hba2 : ¬b = a := fun he => (lt_irrefl a) (he ▸ hab)
        simp [lexLe, hba, hba2] at h₂
      · by_cases hab2 : a = b
        · subst hab2
          simp only [lexLe, if_neg hab, if_pos rfl] at h₁ h₂
          rw [ih bs h₁ h₂]
        · simp [lexLe, hab, hab2] at h₁

theorem keyOrder_total : ∀ a b : String, keyOrder a b ∨ keyOrder b a :=
  fun a b => lexLe_total a.data b.data

theorem keyOrder_trans : ∀ a b c : String, keyOrder a b → keyOrder b c → keyOrder a c :=
  fun a b c => lexLe_trans a.data b.data c.data

theorem keyOrder_antisymm : ∀ a b : String, keyOrder a b → keyOrder b a → a = b :=
  fun a b h₁ h₂ => String.ext (lexLe_antisymm a.data b.data h₁ h₂)

theorem sortKeys_sorted (l : List String) : List.Sorted keyOrder (sortKeys l) := by
  haveI : IsTotal String keyOrder := ⟨keyOrder_total⟩
  haveI : IsTrans String keyOrder := ⟨keyOrder_trans⟩
  exact List.sorted_insertionSort keyOrder l

theorem sortKeys_perm_eq {l₁ l₂ : List String} (h : l₁.Perm l₂) :
    sortKeys l₁ = sortKeys l₂ := by
  haveI : IsAntisymm String keyOrder := ⟨keyOrder_antisymm⟩
  apply List.eq_of_perm_of_sorted (r := keyOrder)
  · exact ((List.perm_insertionSort keyOrder l₁).trans h).trans
      (List.perm_insertionSort keyOrder l₂).symm
  · exact sortKeys_sorted l₁
  · exact sortKeys_sorted l₂

theorem vfsHashInput_perm {creds₁ creds₂ : Creds} (h : creds₁.Perm creds₂)
    (hnd : (creds₁.map Prod.fst).Nodup) (root : String) :
    vfsHashInput root creds₁ = vfsHashInput root creds₂ := by
  unfold vfsHashInput
  rw [sortKeys_perm_eq (h.map Prod.fst)]
  exact List.foldl_ext _ _ _ (fun a x _ => by rw [alookup_perm h hnd x])

theorem foldl_strAppend (t : List String) :
    ∀ a : String, List.foldl (· ++ ·) a t = a ++ String.join t := by
  induction t with
  | nil =>
    intro a
    rw [show String.join ([] : List String) = "" from rfl, String.append_empty]
    rfl
  | cons y t ih =>
    intro a
    have hjc : String.join (y :: t) = y ++ String.join t := by
      show List.foldl (· ++ ·) "" (y :: t) = _
      rw [List.foldl_cons, String.empty_append]
      exact ih y
    rw [List.foldl_cons, ih (a ++ y), String.append_assoc, hjc]

theorem join_cons (x : String) (t : List String) :
    String.join (x :: t) = x ++ String.join t := by
  show List.foldl (· ++ ·) "" (x :: t) = _
  rw [List.foldl_cons, String.empty_append]
  exact foldl_strAppend t x

theorem join_append (l₁ l₂ : List String) :
    String.join (l₁ ++ l₂) = String.join l₁ ++ String.join l₂ := by
  induction l₁ with
  | nil => rw [List.nil_append, show String.join ([] : List String) = "" from rfl,
               String.empty_append]
  | cons x t ih =>
    rw [List.cons_append, join_cons, join_cons, ih, String.append_assoc]

theorem foldl_append_join (g : String → String) (ks : List String) :
    ∀ a : String, ks.foldl (fun acc x => acc ++ g x) a = a ++ String.join (ks.map g) := by
  induction ks with
  | nil =>
    intro a
    rw [List.map_nil, show String.join ([] : List String) = "" from rfl,
        String.append_empty]
    rfl
  | cons x rest ih =>
    intro a
    simp only [List.foldl_cons, List.map_cons]
    rw [ih (a ++ g x), join_cons, String.append_assoc]



theorem alookup_middle_ne {β : Type} {x k : String} (hxk : k ≠ x) (v₁ v₂ : β)
    (pre post : List (String × β)) :
    alookup x (pre ++ (k, v₁) :: post) = alookup x (pre ++ (k, v₂) :: post) := by
  induction pre with
  | nil => simp [alookup, hxk]
  | cons p rest ih =>
    by_cases hp : p.1 = x <;> simp [alookup, hp, ih]

theorem alookup_middle_self {β : Type} (k : String) (v : β)
    (pre post : List (String × β)) (hk : k ∉ pre.map Prod.fst) :
    alookup k (pre ++ (k, v) :: post) = some v := by
  induction pre with
  | nil => simp [alookup]
  | cons p rest ih =>
    simp only [List.map_cons, List.mem_cons] at hk
    have hp : p.1 ≠ k := fun he => hk (Or.inl he.symm)
    simp only [List.cons_append, alookup, hp, if_false]
    exact ih (fun hm => hk (Or.inr hm))

theorem foldl_key_join (g : String → String) (ks : List String) :
    ∀ a : String, ks.foldl (fun acc x => acc ++ x ++ g x) a
      = a ++ String.join (ks.map (fun x => x ++ g x)) := by
  induction ks with
  | nil =>
    intro a
    rw [List.map_nil, show String.join ([] : List String) = "" from rfl,
        String.append_empty]
    rfl
  | cons x rest ih =>
    intro a
    simp only [List.foldl_cons, List.map_cons]
    rw [ih (a ++ x ++ g x), join_cons]
    simp only [String.append_assoc]

theorem vfsHashInput_change (root k : String) (v₁ v₂ : CVal) (pre post : Creds)
    (hnd : ((pre ++ (k, v₁) :: post).map Prod.fst).Nodup)
    (hsv : v₁.sprint ≠ v₂.sprint) :
    vfsHashInput root (pre ++ (k, v₁) :: post) ≠ vfsHashInput root (pre ++ (k, v₂) :: post) := by
  intro he
  have hkeys : ((pre ++ (k, v₂) :: post).map Prod.fst) = ((pre ++ (k, v₁) :: post).map Prod.fst) := by
    simp
  unfold vfsHashInput at he
  rw [hkeys] at he
  rw [foldl_key_join, foldl_key_join] at he
  set ks := sortKeys ((pre ++ (k, v₁) :: post).map Prod.fst) with hks
  have hkmem : k ∈ ks := by
    rw [hks]
    exact ((List.perm_insertionSort keyOrder _).mem_iff).mpr (by simp)
  have hknd : ks.Nodup := (List.perm_insertionSort keyOrder _).symm.nodup hnd
  obtain ⟨u, w, huw⟩ := List.append_of_mem hkmem
  rw [huw] at he hknd
  have hkuw := (List.nodup_middle.mp hknd)
  simp only [List.nodup_cons, List.mem_append] at hkuw
  have hku : k ∉ u := fun hm => hkuw.1 (Or.inl hm)
  have hkw : k ∉ w := fun hm => hkuw.1 (Or.inr hm)
  have hnp : k ∉ pre.map Prod.fst := by
    intro hm
    rw [List.map_append, List.map_cons] at hnd
    have h5 := List.nodup_middle.mp hnd
    simp only [List.nodup_cons, List.mem_append] at h5
    exact h5.1 (Or.inl hm)
  have hg1 : ∀ x ∈ u, (x ++ (match alookup x (pre ++ (k, v₁) :: post) with
      | some v => v.sprint | none => ""))
      = (x ++ (match alookup x (pre ++ (k, v₂) :: post) with
      | some v => v.sprint | none => "")) := by
    intro x hx
    have hxk : k ≠ x := fun he2 => hku (he2 ▸ hx)
    rw [alookup_middle_ne hxk]
  have hg2 : ∀ x ∈ w, (x ++ (match alookup x (pre ++ (k, v₁) :: post) with
      | some v => v.sprint | none => ""))
      = (x ++ (match alookup x (pre ++ (k, v₂) :: post) with
      | some v => v.sprint | none => "")) := by
    intro x hx
    have hxk : k ≠ x := fun he2 => hkw (he2 ▸ hx)
    rw [alookup_middle_ne hxk]
  rw [List.map_append, List.map_cons, join_append, join_cons] at he
  rw [List.map_append, List.map_cons, join_append, join_cons] at he
  rw [List.map_congr_left hg1] at he
  rw [List.map_congr_left hg2] at he
  rw [alookup_middle_self k v₁ pre post hnp, alookup_middle_self k v₂ pre post hnp] at he
  have hd := congrArg String.data he
  simp only [String.data_append] at hd
  simp only [List.append_assoc] at hd
  have h1 := List.append_cancel_left hd
  have h2 := List.append_cancel_left h1
  have h3 := List.append_cancel_left h2
  have h4 := List.append_cancel_right h3
  exact hsv (String.ext h4)



theorem getVFS_spec (env : VfsEnv) (st : VfsSt) (sp : String) (creds : Creds)
    {r : Except String (Nat × String)} {st' : VfsSt}
    (h : getVFS env st sp creds = (r, st')) :
    ((∃ e, r = Except.error e) ∧ st' = st) ∨
    (∃ fsTy hdl, vfsFsType creds sp = some fsTy
      ∧ r = Except.ok (hdl, (decomposeRoot env fsTy sp).2)
      ∧ ((alookup (md5Hex (vfsHashInput (decomposeRoot env fsTy sp).1 creds)) st.vfsCache
            = some hdl ∧ st' = st)
         ∨ (alookup (md5Hex (vfsHashInput (decomposeRoot env fsTy sp).1 creds)) st.vfsCache
              = none
            ∧ hdl = st.nextHandle
            ∧ st'.vfsCache
                = (md5Hex (vfsHashInput (decomposeRoot env fsTy sp).1 creds), hdl) :: st.vfsCache
            ∧ st'.nextHandle = hdl + 1))) := by
  simp only [getVFS] at h
  rcases hty : vfsFsType creds sp with _ | fsTy
  · rw [hty] at h
    simp at h
    exact Or.inl ⟨⟨_, h.1.symm⟩, h.2.symm⟩
  · rw [hty] at h
    simp only at h
    rcases hlk : alookup (md5Hex (vfsHashInput (decomposeRoot env fsTy sp).1 creds)) st.vfsCache
      with _ | v
    · rw [hlk] at h
      rcases hfind : env.findRes fsTy with e | u
      · rw [hfind] at h
        simp at h
        exact Or.inl ⟨⟨_, h.1.symm⟩, h.2.symm⟩
      · rw [hfind] at h
        rcases hnew : env.newFsRes ("flight2_"
            ++ md5Hex (vfsHashInput (decomposeRoot env fsTy sp).1 creds))
            (decomposeRoot env fsTy sp).1 (vfsConf creds) with e | u2
        · rw [hnew] at h
          simp at h
          exact Or.inl ⟨⟨_, h.1.symm⟩, h.2.symm⟩
        · rw [hnew] at h
          simp at h
          refine Or.inr ⟨fsTy, st.nextHandle, rfl, h.1.symm, Or.inr ⟨hlk, rfl, ?_, ?_⟩⟩
          · rw [← h.2]
          · rw [← h.2]
    · rw [hlk] at h
      simp at h
      exact Or.inr ⟨fsTy, v, rfl, h.1.symm, Or.inl ⟨hlk, h.2.symm⟩⟩



/-- C8: a resolve call that fails during handle creation (unknown backend
type or backend setup failure) leaves the shared handle map unchanged, so
a later call with the same inputs re-attempts creation; an entry is added
under the computed hash only when creation succeeds. -/
theorem vfsFailedCreationNotCached (env : VfsEnv) (st : VfsSt) (sp : String)
    (creds : Creds) :
    (∀ e st', getVFS env st sp creds = (Except.error e, st') → st' = st)
    ∧ (∀ hdl rel st', getVFS env st sp creds = (Except.ok (hdl, rel), st') →
        ∀ fsTy, vfsFsType creds sp = some fsTy →
          (alookup (md5Hex (vfsHashInput (decomposeRoot env fsTy sp).1 creds)) st.vfsCache
              = some hdl ∧ st' = st)
          ∨ (alookup (md5Hex (vfsHashInput (decomposeRoot env fsTy sp).1 creds)) st.vfsCache
              = none
             ∧ st'.vfsCache
                 = (md5Hex (vfsHashInput (decomposeRoot env fsTy sp).1 creds), hdl)
                     :: st.vfsCache)) := by
  constructor
  · intro e st' h
    rcases getVFS_spec env st sp creds h with ⟨-, hst⟩ | ⟨fsTy, hdl, -, hr, -⟩
    · exact hst
    · exact absurd hr (by simp)
  · intro hdl rel st' h fsTy hty
    rcases getVFS_spec env st sp creds h with ⟨⟨e, he⟩, -⟩ | ⟨fsTy', hdl', hty', hr, hcase⟩
    · exact absurd he (by simp)
    · rw [hty] at hty'
      cases hty'
      have hh : hdl' = hdl := by
        injection hr with h1
        injection h1 with h2 _
        exact h2.symm
      rw [hh] at hcase
      rcases hcase with ⟨ha, hb⟩ | ⟨ha, hb, hc, -⟩
      · exact Or.inl ⟨ha, hb⟩
      · exact Or.inr ⟨ha, hc⟩

/-- C8 witness. -/
theorem vfsFailedCreationNotCached_witness :
    (getVFS ({ exVfsEnv with findRes := fun _ => Except.error "nope" })
        exVfsSt "/d" exCreds).2 = exVfsSt :=
  (vfsFailedCreationNotCached ({ exVfsEnv with findRes := fun _ => Except.error "nope" })
    exVfsSt "/d" exCreds).1 "backend type not found: nope"
    (getVFS ({ exVfsEnv with findRes := fun _ => Except.error "nope" }) exVfsSt "/d" exCreds).2
    rfl



/-- C4: the remote-handle hash input is a function of the resolved root
and the credential key/value set only: permuting the credential map does
not change it and a second resolve call with permuted credentials returns
the cached handle and leaves the state unchanged, while changing the
value of one credential yields a different hash input and a freshly
created, distinct handle. -/
theorem vfsHandleCacheKey (env : VfsEnv) (st : VfsSt) (sourcePath : String) :
    (∀ (creds₁ creds₂ : Creds) (hdl : Nat) (rel : String) (st' : VfsSt),
       creds₁.Perm creds₂ → (creds₁.map Prod.fst).Nodup →
       getVFS env st sourcePath creds₁ = (Except.ok (hdl, rel), st') →
       (∀ root, vfsHashInput root creds₁ = vfsHashInput root creds₂)
       ∧ getVFS env st' sourcePath creds₂ = (Except.ok (hdl, rel), st'))
    ∧ (∀ (k : String) (v₁ v₂ : CVal) (pre post : Creds) (fsTy rel₁ rel₂ : String)
         (h₁ h₂ : Nat) (st₁ st₂ : VfsSt),
       ((pre ++ (k, v₁) :: post).map Prod.fst).Nodup →
       CVal.sprint v₁ ≠ CVal.sprint v₂ →
       vfsFsType (pre ++ (k, v₁) :: post) sourcePath = some fsTy →
       vfsFsType (pre ++ (k, v₂) :: post) sourcePath = some fsTy →
       alookup (md5Hex (vfsHashInput (decomposeRoot env fsTy sourcePath).1
           (pre ++ (k, v₁) :: post))) st.vfsCache = none →
       alookup (md5Hex (vfsHashInput (decomposeRoot env fsTy sourcePath).1
           (pre ++ (k, v₂) :: post))) st.vfsCache = none →
       getVFS env st sourcePath (pre ++ (k, v₁) :: post) = (Except.ok (h₁, rel₁), st₁) →
       getVFS env st₁ sourcePath (pre ++ (k, v₂) :: post) = (Except.ok (h₂, rel₂), st₂) →
       (∀ root, vfsHashInput root (pre ++ (k, v₁) :: post)
          ≠ vfsHashInput root (pre ++ (k, v₂) :: post))
       ∧ h₁ ≠ h₂) := by
  constructor
  · intro creds₁ creds₂ hdl rel st' hperm hnd h1
    have hhash : ∀ root, vfsHashInput root creds₁ = vfsHashInput root creds₂ :=
      fun root => vfsHashInput_perm hperm hnd root
    refine ⟨hhash, ?_⟩
    rcases getVFS_spec env st sourcePath creds₁ h1 with ⟨⟨e, he⟩, -⟩ | ⟨fsTy, hdl', hty, hr, hcase⟩
    · exact absurd he (by simp)
    · have hh : hdl' = hdl ∧ rel = (decomposeRoot env fsTy sourcePath).2 := by
        injection hr with hr1
        injection hr1 with hr2 hr3
        exact ⟨hr2.symm, hr3⟩
      rw [hh.1] at hcase
      have hty2 : vfsFsType creds₂ sourcePath = some fsTy := by
        unfold vfsFsType at hty ⊢
        rw [← credsGetString_perm hperm hnd "type"]
        exact hty
      have hhash2 : md5Hex (vfsHashInput (decomposeRoot env fsTy sourcePath).1 creds₂)
          = md5Hex (vfsHashInput (decomposeRoot env fsTy sourcePath).1 creds₁) :=
        congrArg md5Hex (hhash _).symm
      simp only [getVFS, hty2, hhash2]
      rcases hcase with ⟨ha, hb⟩ | ⟨ha, hb, hc, hd⟩
      · rw [hb, ha, hh.2]
      · rw [hc, hh.2]
        simp [alookup]
  · intro k v₁ v₂ pre post fsTy rel₁ rel₂ h₁ h₂ st₁ st₂ hnd hsv hty1 hty2 hm1 hm2 hc1 hc2
    have hneq : ∀ root, vfsHashInput root (pre ++ (k, v₁) :: post)
        ≠ vfsHashInput root (pre ++ (k, v₂) :: post) :=
      fun root => vfsHashInput_change root k v₁ v₂ pre post hnd hsv
    refine ⟨hneq, ?_⟩
    rcases getVFS_spec env st sourcePath _ hc1 with ⟨⟨e, he⟩, -⟩ | ⟨t₁, hdl₁, hty1', hr1, hcase1⟩
    · exact absurd he (by simp)
    · rw [hty1] at hty1'
      cases hty1'
      have hh1 : hdl₁ = h₁ := by
        injection hr1 with hr1a
        injection hr1a with hr1b
        exact hr1b.symm
      rw [hh1] at hcase1
      rcases hcase1 with ⟨ha, -⟩ | ⟨-, hb1, hc1', hd1⟩
      · rw [hm1] at ha
        exact absurd ha (by simp)
      · rcases getVFS_spec env st₁ sourcePath _ hc2 with ⟨⟨e, he⟩, -⟩
          | ⟨t₂, hdl₂, hty2', hr2, hcase2⟩
        · exact absurd he (by simp)
        · rw [hty2] at hty2'
          cases hty2'
          have hh2 : hdl₂ = h₂ := by
            injection hr2 with hr2a
            injection hr2a with hr2b
            exact hr2b.symm
          rw [hh2] at hcase2
          rcases hcase2 with ⟨ha2, -⟩ | ⟨-, hb2, -, -⟩
          · rw [hc1'] at ha2
            have hne12 : md5Hex (vfsHashInput (decomposeRoot env fsTy sourcePath).1
                  (pre ++ (k, v₁) :: post))
                ≠ md5Hex (vfsHashInput (decomposeRoot env fsTy sourcePath).1
                  (pre ++ (k, v₂) :: post)) := by
              intro he2
              exact (hneq (decomposeRoot env fsTy sourcePath).1) (by
                simpa [md5Hex] using he2)
            simp only [alookup, if_neg hne12] at ha2
            rw [hm2] at ha2
            exact absurd ha2 (by simp)
          · omega



/-- C4 witness: permuted credentials give the same hash input and reuse
the cached handle; changing one credential value gives a different hash
input and a distinct handle. -/
theorem vfsHandleCacheKey_witness :
    vfsHashInput "" [("type", CVal.str "s3"), ("k", CVal.str "v")]
        = vfsHashInput "" [("k", CVal.str "v"), ("type", CVal.str "s3")]
    ∧ getVFS exVfsEnv
        (getVFS exVfsEnv exVfsSt "/d.csv" [("type", CVal.str "s3"), ("k", CVal.str "v")]).2
        "/d.csv" [("k", CVal.str "v"), ("type", CVal.str "s3")]
      = (Except.ok (0, "d.csv"),
         (getVFS exVfsEnv exVfsSt "/d.csv" [("type", CVal.str "s3"), ("k", CVal.str "v")]).2)
    ∧ vfsHashInput "" [("type", CVal.str "s3"), ("k", CVal.str "v")]
        ≠ vfsHashInput "" [("type", CVal.str "s3"), ("k", CVal.str "w")] :=
  ⟨((vfsHandleCacheKey exVfsEnv exVfsSt "/d.csv").1
      [("type", CVal.str "s3"), ("k", CVal.str "v")]
      [("k", CVal.str "v"), ("type", CVal.str "s3")] 0 "d.csv"
      (getVFS exVfsEnv exVfsSt "/d.csv" [("type", CVal.str "s3"), ("k", CVal.str "v")]).2
      (by decide) (by decide) rfl).1 "",
   ((vfsHandleCacheKey exVfsEnv exVfsSt "/d.csv").1
      [("type", CVal.str "s3"), ("k", CVal.str "v")]
      [("k", CVal.str "v"), ("type", CVal.str "s3")] 0 "d.csv"
      (getVFS exVfsEnv exVfsSt "/d.csv" [("type", CVal.str "s3"), ("k", CVal.str "v")]).2
      (by decide) (by decide) rfl).2,
   ((vfsHandleCacheKey exVfsEnv exVfsSt "/d.csv").2
      "k" (CVal.str "v") (CVal.str "w") [("type", CVal.str "s3")] [] "s3"
      "d.csv" "d.csv" 0 1
      ⟨[("kvtypes3", 0)], 1⟩ ⟨[("kwtypes3", 1), ("kvtypes3", 0)], 2⟩
      (by decide) (by decide) rfl rfl rfl rfl rfl rfl).1 ""⟩


end Flight2
